import Mathlib

/-!
Verification of the MultiQC_neuroimaging plugin modules.

This file shallowly embeds the data model and the operations of the
repository's eight MultiQC modules (cortical, subcortical, tractometry,
coverage, streamline_count, metricsinroi, framewise_displacement, bundles)
and proves properties of them.

Conventions of the embedding:
* Python floats are modelled as rationals; the numeric text-to-float
  conversion performed by Python float() and int() is modelled by passing
  the parse result (an Option) at the boundary, or by an explicit
  conversion oracle argument of type String to Option of a rational.
* Python dicts are modelled as association lists in insertion order,
  with update-in-place / append-at-end semantics (dictUpd below).
* Python sets of strings are modelled as duplicate-free lists built with
  setAdd below.
* Raising the ModuleNoSamplesFound sentinel is modelled by the
  noSamplesFound constructor of ModuleResult.
-/

namespace Neuro

/-- Insertion into a sorted list of rationals; helper for sortQ. -/
def insertSorted (x : ℚ) : List ℚ → List ℚ
  | [] => [x]
  | y :: ys => if x ≤ y then x :: y :: ys else y :: insertSorted x ys

/-- Insertion sort on rationals.  Models the sorting performed internally
by numpy.percentile. -/
def sortQ (xs : List ℚ) : List ℚ := xs.foldr insertSorted []

/-- Minimum of a list of rationals (0 on the empty list, which never occurs
at the call sites).  Models np.min. -/
def listMin : List ℚ → ℚ
  | [] => 0
  | x :: xs => xs.foldl min x

/-- Maximum of a list of rationals (0 on the empty list, which never occurs
at the call sites).  Models np.max and Python max(). -/
def listMax : List ℚ → ℚ
  | [] => 0
  | x :: xs => xs.foldl max x

/-- Arithmetic mean of a list of rationals.  Models np.mean. -/
def meanQ (xs : List ℚ) : ℚ := xs.sum / (xs.length : ℚ)

/-- numpy.percentile with the default linear interpolation: for a sorted
sample s of length n and percentage p, the virtual index is
h = (n - 1) * p / 100 and the result interpolates between the values at
positions floor h and floor h + 1. -/
def percentile (xs : List ℚ) (p : ℚ) : ℚ :=
  let s := sortQ xs
  if s.isEmpty then 0
  else
    let m : ℕ := s.length - 1
    let h : ℚ := (m : ℚ) * p / 100
    let i : ℕ := (Int.toNat ⌊h⌋)
    let lo := s.getD i 0
    let hi := s.getD (i + 1) lo
    lo + (h - (i : ℚ)) * (hi - lo)

/-- The inline outlier-bound computation shared by the streamline_count
module (MultiqcModule._add_streamline_count_stats) and the metricsinroi
module (MultiqcModule.__init__): q1 and q3 are the 25th and 75th
percentiles, iqr = q3 - q1, and the bounds are
(q1 - k * iqr, q3 + k * iqr) for the configurable multiplier k. -/
def iqr_bounds (k : ℚ) (values : List ℚ) : ℚ × ℚ :=
  let q1 := percentile values 25
  let q3 := percentile values 75
  let iqr := q3 - q1
  (q1 - k * iqr, q3 + k * iqr)

/-- Per-region bound computation of
cortical.MultiqcModule._calculate_outlier_percentages (the subcortical
module contains a line-for-line identical copy): if a region has fewer
than 4 values across the cohort the full range (min, max) is used,
otherwise the bounds are q1 - 3 * iqr and q3 + 3 * iqr with the
multiplier 3 written literally in the source. -/
def cortical_region_bounds (values : List ℚ) : ℚ × ℚ :=
  if values.length < 4 then (listMin values, listMax values)
  else
    let q1 := percentile values 25
    let q3 := percentile values 75
    let iqr := q3 - q1
    (q1 - 3 * iqr, q3 + 3 * iqr)

/-- Identical copy used by subcortical.MultiqcModule, which duplicates the
cortical code verbatim. -/
def subcortical_region_bounds (values : List ℚ) : ℚ × ℚ :=
  cortical_region_bounds values

/-- QC status values used by every module. -/
inductive Status
  | pass
  | warn
  | fail
deriving DecidableEq, Repr

/-- Result of running a module constructor: either the sentinel
ModuleNoSamplesFound was raised, or the module completed and produced
output. -/
inductive ModuleResult (α : Type)
  | noSamplesFound
  | ok (out : α)
deriving DecidableEq, Repr

/-- The pass/warn/fail sample-name groups handed to add_section. -/
structure StatusGroups where
  passG : List String
  warnG : List String
  failG : List String
deriving DecidableEq, Repr

/-- Dictionary lookup on an association list (first matching key, as in a
Python dict, whose keys are unique). -/
def lookupV {α : Type} (m : List (String × α)) (k : String) : Option α :=
  (m.find? (fun p => p.1 == k)).map (·.2)

/-- Keys of an association list, in insertion order. -/
def keys {α : Type} (m : List (String × α)) : List String := m.map Prod.fst

/-- Python dict write d[k] = f(current value): replaces the value of an
existing key in place, otherwise appends the key at the end. -/
def dictUpd {α : Type} (f : Option α → α) (m : List (String × α)) (k : String) :
    List (String × α) :=
  match m with
  | [] => [(k, f none)]
  | (k', v) :: rest =>
      if k' = k then (k', f (some v)) :: rest else (k', v) :: dictUpd f rest k

/-- Python set.add on a duplicate-free list: appends the element if absent. -/
def setAdd (xs : List String) (x : String) : List String :=
  if x ∈ xs then xs else xs ++ [x]

/-- Folding dictUpd over a list of items, each carrying a key. -/
def dictFold {α β : Type} (κ : β → String) (g : β → Option α → α)
    (m : List (String × α)) (l : List β) : List (String × α) :=
  l.foldl (fun m b => dictUpd (g b) m (κ b)) m

/-- One step of the status grouping loop: append the sample name to the
list of its status. -/
def statusStep {α : Type} (f : α → Status) (g : StatusGroups) (p : String × α) :
    StatusGroups :=
  match f p.2 with
  | .pass => ⟨g.passG ++ [p.1], g.warnG, g.failG⟩
  | .warn => ⟨g.passG, g.warnG ++ [p.1], g.failG⟩
  | .fail => ⟨g.passG, g.warnG, g.failG ++ [p.1]⟩

/-- Grouping of samples into pass/warn/fail lists by folding a status
function over the samples, in order.  This is the shape of the status-bar
construction in every module. -/
def statusGroupsOf {α : Type} (f : α → Status) (xs : List (String × α)) :
    StatusGroups :=
  xs.foldl (statusStep f) ⟨[], [], []⟩

end Neuro

namespace Neuro

/-! ## Cortical and subcortical modules -/

/-- cortical.MultiqcModule.parse_cortical_file.  Lines are modelled
pre-split on tabs (each line is its list of stripped fields); floatOf
models Python float() and returns none on a malformed numeric string.
Note that the source records 0.0 for a region whose volume field fails to
parse. -/
def parse_cortical_file (floatOf : String → Option ℚ) (lines : List (List String)) :
    List (String × List (String × ℚ)) :=
  match lines with
  | [] => []
  | [_] => []
  | header :: rows =>
      let region_names := header.drop 1
      rows.foldl
        (fun data fields =>
          if fields.length < 2 then data
          else
            let sample_name := fields.headD ""
            let volumes := fields.drop 1
            let sample_data := (region_names.zip volumes).map
              (fun rv => (rv.1, (floatOf rv.2).getD 0))
            dictUpd (fun _ => sample_data) data sample_name)
        []

/-- subcortical.MultiqcModule.parse_subcortical_file, a line-for-line copy
of the cortical parser. -/
def parse_subcortical_file (floatOf : String → Option ℚ)
    (lines : List (List String)) : List (String × List (String × ℚ)) :=
  parse_cortical_file floatOf lines

/-- The file loop of cortical.MultiqcModule.__init__: parse every file and
merge the per-sample region dicts (regions from multiple files, e.g. lh
and rh, for the same samples). -/
def cortical_collect (floatOf : String → Option ℚ)
    (files : List (List (List String))) : List (String × List (String × ℚ)) :=
  files.foldl
    (fun cdata file =>
      let parsed := parse_cortical_file floatOf file
      parsed.foldl
        (fun cd sr =>
          dictUpd
            (fun o => sr.2.foldl (fun m rv => dictUpd (fun _ => rv.2) m rv.1)
              (o.getD []))
            cd sr.1)
        cdata)
    []

/-- The region_values dict of _calculate_outlier_percentages: for every
sample, for every region of the sample, the volume is appended to the
region's list. -/
def region_values (cdata : List (String × List (String × ℚ))) :
    List (String × List ℚ) :=
  cdata.foldl
    (fun acc sr => dictFold Prod.fst (fun rv o => (o.getD []) ++ [rv.2]) acc sr.2)
    []

/-- The region_iqr_bounds dict of _calculate_outlier_percentages. -/
def cortical_bounds_map (cdata : List (String × List (String × ℚ))) :
    List (String × (ℚ × ℚ)) :=
  (region_values cdata).map (fun p => (p.1, cortical_region_bounds p.2))

/-- The outlier test of _calculate_outlier_percentages: a region volume is
counted if the region has bounds and the volume is strictly outside them. -/
def is_outlier_at (bounds : List (String × (ℚ × ℚ))) (rv : String × ℚ) : Bool :=
  match lookupV bounds rv.1 with
  | some b => decide (rv.2 < b.1) || decide (b.2 < rv.2)
  | none => false

/-- The outlier_count loop of _calculate_outlier_percentages. -/
def outlier_count (bounds : List (String × (ℚ × ℚ)))
    (regs : List (String × ℚ)) : ℕ :=
  regs.foldl (fun c rv => if is_outlier_at bounds rv then c + 1 else c) 0

/-- cortical.MultiqcModule._calculate_outlier_percentages (the subcortical
module contains an identical copy): percentage of outlier regions per
sample, with denominator the number of regions having bounds, and 0.0
when there are no regions. -/
def calculate_outlier_percentages (cdata : List (String × List (String × ℚ))) :
    List (String × ℚ) :=
  let bounds := cortical_bounds_map cdata
  let total := bounds.length
  cdata.map
    (fun sr =>
      (sr.1,
        if 0 < total then ((outlier_count bounds sr.2 : ℚ) / (total : ℚ)) * 100
        else 0))

/-- The status assignment of cortical.MultiqcModule.__init__ (and of the
identical subcortical loop): pass when the percentage is at most
fail_threshold, warn when at most warn_threshold, fail otherwise. -/
def cortical_status (warnT failT : ℚ) (pct : ℚ) : Status :=
  if pct ≤ failT then .pass else if pct ≤ warnT then .warn else .fail

/-- Output of the cortical (and subcortical) constructor. -/
structure CorticalOutput where
  data : List (String × List (String × ℚ))
  percentages : List (String × ℚ)
  groups : StatusGroups

/-- cortical.MultiqcModule.__init__: raise on single-subject mode, parse
and merge files, filter ignored samples, raise when no sample remains,
otherwise compute percentages and statuses.  keep models
BaseMultiqcModule.ignore_samples. -/
def corticalRun (single_subject : Bool) (warnT failT : ℚ)
    (floatOf : String → Option ℚ) (files : List (List (List String)))
    (keep : String → Bool) : ModuleResult CorticalOutput :=
  if single_subject then .noSamplesFound
  else
    let cdata := (cortical_collect floatOf files).filter (fun p => keep p.1)
    if cdata.length = 0 then .noSamplesFound
    else
      let pcts := calculate_outlier_percentages cdata
      .ok ⟨cdata, pcts, statusGroupsOf (cortical_status warnT failT) pcts⟩

/-- subcortical.MultiqcModule.__init__, identical in control flow and
computation to the cortical constructor. -/
def subcorticalRun (single_subject : Bool) (warnT failT : ℚ)
    (floatOf : String → Option ℚ) (files : List (List (List String)))
    (keep : String → Bool) : ModuleResult CorticalOutput :=
  corticalRun single_subject warnT failT floatOf files keep

/-! ## Coverage module -/

/-- A coverage input file: the sample name after the filename match and
clean_s_name (string cosmetics, not modelled further), and the float()
parse result of each stripped line. -/
structure CovFile where
  name : String
  lines : List (Option ℚ)

/-- coverage.MultiqcModule.parse_dice_file: empty files and files whose
first line does not parse as a float yield no sample. -/
def parse_dice_file (f : CovFile) : Option (String × ℚ) :=
  match f.lines with
  | [] => none
  | l0 :: _ =>
      match l0 with
      | none => none
      | some v => some (f.name, v)

/-- The status assignment of coverage.MultiqcModule._add_coverage_stats. -/
def coverage_status (warnT failT : ℚ) (d : ℚ) : Status :=
  if d < failT then .fail else if d < warnT then .warn else .pass

/-- Output of the coverage constructor. -/
structure CovOutput where
  data : List (String × ℚ)
  groups : StatusGroups

/-- The file loop of coverage.MultiqcModule.__init__. -/
def dice_collect (files : List CovFile) : List (String × ℚ) :=
  files.foldl
    (fun d f =>
      match parse_dice_file f with
      | none => d
      | some sv => dictUpd (fun _ => sv.2) d sv.1)
    []

/-- coverage.MultiqcModule.__init__ together with _add_coverage_stats. -/
def coverageRun (single_subject : Bool) (warnT failT : ℚ)
    (files : List CovFile) (keep : String → Bool) : ModuleResult CovOutput :=
  if single_subject then .noSamplesFound
  else
    let dice := (dice_collect files).filter (fun p => keep p.1)
    if dice.length = 0 then .noSamplesFound
    else .ok ⟨dice, statusGroupsOf (coverage_status warnT failT) dice⟩

/-! ## Streamline count module -/

/-- A streamline-count input file: sample name after filename munging and
clean_s_name, plus the int() parse result of each stripped line. -/
structure SCFile where
  name : String
  lines : List (Option ℤ)

/-- streamline_count.MultiqcModule.parse_sc_file. -/
def parse_sc_file (f : SCFile) : Option (String × ℤ) :=
  match f.lines with
  | [] => none
  | l0 :: _ => l0.map (fun v => (f.name, v))

/-- The status assignment of _add_streamline_count_stats: fail when the
count lies strictly outside the bounds, pass otherwise; there is no warn
status in this module. -/
def sc_status (lo hi v : ℚ) : Status :=
  if v < lo ∨ hi < v then .fail else .pass

/-- Output of the streamline_count constructor. -/
structure SCOutput where
  data : List (String × ℤ)
  bounds : ℚ × ℚ
  groups : StatusGroups

/-- The file loop of streamline_count.MultiqcModule.__init__. -/
def sc_collect (files : List SCFile) : List (String × ℤ) :=
  files.foldl
    (fun d f =>
      match parse_sc_file f with
      | none => d
      | some sv => dictUpd (fun _ => sv.2) d sv.1)
    []

/-- streamline_count.MultiqcModule.__init__ together with
_add_streamline_count_stats; k is the configurable iqr_multiplier. -/
def scRun (single_subject : Bool) (k : ℚ) (files : List SCFile)
    (keep : String → Bool) : ModuleResult SCOutput :=
  if single_subject then .noSamplesFound
  else
    let sc := (sc_collect files).filter (fun p => keep p.1)
    if sc.length = 0 then .noSamplesFound
    else
      let b := iqr_bounds k (sc.map (fun p => ((p.2 : ℤ) : ℚ)))
      .ok ⟨sc, b, statusGroupsOf (fun v : ℤ => sc_status b.1 b.2 (v : ℚ)) sc⟩

end Neuro

namespace Neuro

/-! ## Tractometry module -/

/-- One csv.DictReader row of a bundles_mean_stats.tsv file: the stripped
sample field (empty when the column is absent or empty), the bundle field
(empty when absent or empty), and for each metric column either none
(column absent or empty string, the falsy test of the source) or the
float() parse result. -/
structure TractRow where
  sample : String
  bundle : String
  fa : Option (Option ℚ)
  volume : Option (Option ℚ)
  streamlines : Option (Option ℚ)

/-- A tractometry input file: the file-level s_name (none when missing)
and its rows. -/
structure TractFile where
  sname : Option String
  rows : List TractRow

/-- Python s or default for optional strings: the default replaces both
None and the empty string. -/
def orNonempty (s : Option String) (d : String) : String :=
  match s with
  | none => d
  | some t => if t == "" then d else t

/-- Sample name of a row: the per-row sample column is preferred over the
file-level s_name, which itself falls back to "unknown". -/
def row_sample_name (sname : Option String) (row : TractRow) : String :=
  if row.sample == "" then orNonempty sname "unknown" else row.sample

/-- Bundle name of a row, "unnamed" when absent. -/
def row_bundle_name (row : TractRow) : String :=
  if row.bundle == "" then "unnamed" else row.bundle

/-- All rows of all files with their resolved sample and bundle names, in
file order then row order; the two dicts of the parsing loop are folds
over this sequence. -/
def tract_items (files : List TractFile) : List (String × String × TractRow) :=
  (files.map (fun f =>
    f.rows.map (fun r => (row_sample_name f.sname r, row_bundle_name r, r)))).flatten

/-- The samples_bundles dict of tractometry.MultiqcModule.__init__: per
sample, the set of its bundles. -/
def tract_samples_bundles (files : List TractFile) :
    List (String × List String) :=
  dictFold (fun it => it.1) (fun it o => setAdd (o.getD []) it.2.1) []
    (tract_items files)

/-- The metric collection of one row: fa, volume and streamlines_count are
recorded when the column is present, non-empty and parses as a float;
otherwise the try/except of the source drops the field. -/
def row_metrics_upd (row : TractRow) (rec : List (String × ℚ)) :
    List (String × ℚ) :=
  let r1 := match row.fa with
    | some (some v) => dictUpd (fun _ => v) rec "fa"
    | _ => rec
  let r2 := match row.volume with
    | some (some v) => dictUpd (fun _ => v) r1 "volume"
    | _ => r1
  match row.streamlines with
  | some (some v) => dictUpd (fun _ => v) r2 "streamlines_count"
  | _ => r2

/-- The bundle_metrics dict of tractometry.MultiqcModule.__init__. -/
def tract_bundle_metrics (files : List TractFile) :
    List (String × List (String × List (String × ℚ))) :=
  dictFold (fun it => it.2.1)
    (fun it o =>
      dictUpd (fun o2 => row_metrics_upd it.2.2 (o2.getD [])) (o.getD []) it.1)
    [] (tract_items files)

/-- The status assignment of tractometry.MultiqcModule.__init__: fail
below fail_threshold, warn below warn_threshold, pass otherwise. -/
def tractometry_status (warnT failT : ℚ) (pct : ℚ) : Status :=
  if pct < failT then .fail else if pct < warnT then .warn else .pass

/-- The sample percentage computation of tractometry.MultiqcModule.__init__:
bundle count over total bundles times 100, 0 when there are no bundles. -/
def tract_sample_percentages (sb : List (String × List String)) (total : ℕ) :
    List (String × ℚ) :=
  sb.map
    (fun p =>
      (p.1, if 0 < total then ((p.2.length : ℚ) / (total : ℚ)) * 100 else 0))

/-- Output of the tractometry constructor. -/
structure TractOutput where
  samples : List (String × List String)
  percentages : List (String × ℚ)
  groups : StatusGroups
  totalBundles : ℕ

/-- tractometry.MultiqcModule.__init__. -/
def tractometryRun (single_subject : Bool) (warnT failT : ℚ)
    (files : List TractFile) (keep : String → Bool) : ModuleResult TractOutput :=
  if single_subject then .noSamplesFound
  else if files.length = 0 then .noSamplesFound
  else
    let sb := (tract_samples_bundles files).filter (fun p => keep p.1)
    let total := (tract_bundle_metrics files).length
    if sb.length = 0 then .noSamplesFound
    else
      let pcts := tract_sample_percentages sb total
      .ok ⟨sb, pcts, statusGroupsOf (tractometry_status warnT failT) pcts, total⟩

/-! ## Metricsinroi module -/

/-- One csv.DictReader row of a rois_mean_stats.tsv file. -/
structure RoiRow where
  sample : String
  roi : String
  fa : Option (Option ℚ)

/-- A metricsinroi input file. -/
structure RoiFile where
  sname : Option String
  rows : List RoiRow

/-- All rows of all files with their resolved sample and roi names. -/
def roi_items (files : List RoiFile) : List (String × String × RoiRow) :=
  (files.map (fun f =>
    f.rows.map (fun r =>
      (if r.sample == "" then orNonempty f.sname "unknown" else r.sample,
       if r.roi == "" then "unnamed" else r.roi, r)))).flatten

/-- The samples_rois dict of metricsinroi.MultiqcModule.__init__. -/
def samples_rois (files : List RoiFile) : List (String × List String) :=
  dictFold (fun it => it.1) (fun it o => setAdd (o.getD []) it.2.1) []
    (roi_items files)

/-- The fa collection of one metricsinroi row. -/
def roi_row_upd (row : RoiRow) (rec : List (String × ℚ)) : List (String × ℚ) :=
  match row.fa with
  | some (some v) => dictUpd (fun _ => v) rec "fa"
  | _ => rec

/-- The roi_metrics dict of metricsinroi.MultiqcModule.__init__. -/
def roi_metrics (files : List RoiFile) :
    List (String × List (String × List (String × ℚ))) :=
  dictFold (fun it => it.2.1)
    (fun it o =>
      dictUpd (fun o2 => roi_row_upd it.2.2 (o2.getD [])) (o.getD []) it.1)
    [] (roi_items files)

/-- The fa value recorded for a sample in one roi entry of roi_metrics. -/
def fa_of (inner : List (String × List (String × ℚ))) (s : String) : Option ℚ :=
  (lookupV inner s).bind (fun rec => lookupV rec "fa")

/-- The roi_samples / roi_fa_values zip of the status loop: surviving
samples in order that have an fa value in this roi, with that value. -/
def fa_pairs (sampleKeys : List String)
    (inner : List (String × List (String × ℚ))) : List (String × ℚ) :=
  sampleKeys.filterMap (fun s => (fa_of inner s).map (fun v => (s, v)))

/-- The body of the per-sample check of the metricsinroi status loop: an
outlier sample is added to failed and removed from passed. -/
def roi_mark (b : ℚ × ℚ) (st : List String × List String) (q : String × ℚ) :
    List String × List String :=
  if q.2 < b.1 ∨ b.2 < q.2 then (st.1.erase q.1, setAdd st.2 q.1) else st

/-- One roi iteration of the metricsinroi status loop: skip rois with no
fa values, otherwise compute the iqr bounds of the roi's fa values and
check every sample that has a value. -/
def roi_check_step (k : ℚ) (sampleKeys : List String)
    (st : List String × List String)
    (entry : String × List (String × List (String × ℚ))) :
    List String × List String :=
  let pairs := fa_pairs sampleKeys entry.2
  if pairs.isEmpty then st
  else
    let b := iqr_bounds k (pairs.map Prod.snd)
    pairs.foldl (roi_mark b) st

/-- The full metricsinroi status loop: passed starts as all surviving
samples, failed empty. -/
def roi_statuses (k : ℚ) (sampleKeys : List String)
    (rm : List (String × List (String × List (String × ℚ)))) :
    List String × List String :=
  rm.foldl (roi_check_step k sampleKeys) (sampleKeys, [])

/-- The sample_fa_values dict of metricsinroi.MultiqcModule.__init__: the
mean fa across rois, only for samples having at least one fa value. -/
def sample_fa_values (sampleKeys : List String)
    (rm : List (String × List (String × List (String × ℚ)))) :
    List (String × ℚ) :=
  sampleKeys.foldl
    (fun acc s =>
      let fas := rm.filterMap (fun e => fa_of e.2 s)
      if fas.isEmpty then acc else dictUpd (fun _ => meanQ fas) acc s)
    []

/-- Output of the metricsinroi constructor. -/
structure RoiOutput where
  samples : List (String × List String)
  meanFA : List (String × ℚ)
  groups : StatusGroups

/-- metricsinroi.MultiqcModule.__init__; k is the configurable
iqr_multiplier.  The warn group is the literal empty list of the source. -/
def roiRun (single_subject : Bool) (k : ℚ) (files : List RoiFile)
    (keep : String → Bool) : ModuleResult RoiOutput :=
  if single_subject then .noSamplesFound
  else if files.length = 0 then .noSamplesFound
  else
    let sr := (samples_rois files).filter (fun p => keep p.1)
    if sr.length = 0 then .noSamplesFound
    else
      let rm := roi_metrics files
      let sk := keys sr
      let st := roi_statuses k sk rm
      .ok ⟨sr, sample_fa_values sk rm, ⟨st.1, [], st.2⟩⟩

/-! ## Framewise displacement module -/

/-- A framewise-displacement input file: sample name after filename
munging and clean_s_name, and the lines, each pre-split on whitespace with
every field carrying its float() parse result. -/
structure FDFile where
  name : String
  lines : List (List (Option ℚ))

/-- The value loop of framewise_displacement.MultiqcModule.parse_fd_file:
rows with fewer than two fields (including blank lines) are skipped, and a
second field that fails to parse skips the row. -/
def parse_fd_values (lines : List (List (Option ℚ))) : List ℚ :=
  lines.foldl
    (fun vals fields =>
      if fields.length < 2 then vals
      else
        match fields[1]?.getD none with
        | some v => vals ++ [v]
        | none => vals)
    []

/-- framewise_displacement.MultiqcModule.parse_fd_file: empty files and
files yielding no values produce no sample. -/
def parse_fd_file (f : FDFile) : Option (String × List ℚ) :=
  if f.lines.isEmpty then none
  else
    let values := parse_fd_values f.lines
    if values.isEmpty then none
    else some (f.name, values)

/-- The status assignment of _add_multi_subject_plots, from the maximum FD
of a sample. -/
def fd_status (warnT failT : ℚ) (m : ℚ) : Status :=
  if m < warnT then .pass else if m < failT then .warn else .fail

/-- The max_fd_values dict of _add_multi_subject_plots; samples with an
empty value list are skipped by the truthiness test of the source. -/
def fd_max_values (data : List (String × List ℚ)) : List (String × ℚ) :=
  data.filterMap
    (fun p => if p.2.isEmpty then none else some (p.1, listMax p.2))

/-- The report section produced by the framewise displacement module:
either the single-subject line plot or the multi-subject statistics. -/
inductive FDSection
  | singlePlot (sample : String) (values : List ℚ)
  | multiPlot (maxFDs : List (String × ℚ)) (groups : StatusGroups)

/-- The file loop of framewise_displacement.MultiqcModule.__init__. -/
def fd_collect (files : List FDFile) : List (String × List ℚ) :=
  files.foldl
    (fun d f =>
      match parse_fd_file f with
      | none => d
      | some sv => dictUpd (fun _ => sv.2) d sv.1)
    []

/-- framewise_displacement.MultiqcModule.__init__: this module runs in
both modes, branching after the no-samples check. -/
def fdRun (single_subject : Bool) (warnT failT : ℚ) (files : List FDFile)
    (keep : String → Bool) : ModuleResult FDSection :=
  let fd := (fd_collect files).filter (fun p => keep p.1)
  if fd.length = 0 then .noSamplesFound
  else if single_subject then
    let first := fd.headD ("", [])
    .ok (.singlePlot first.1 first.2)
  else
    let maxFDs := fd_max_values fd
    .ok (.multiPlot maxFDs (statusGroupsOf (fd_status warnT failT) maxFDs))

/-! ## Bundles module -/

/-- A bundles input file after parse_bundle_file, which only extracts a
display name and the file path from the file name (string cosmetics). -/
structure BundleFile where
  bundleName : String
  filepath : String

/-- The file loop of bundles.MultiqcModule.__init__; every file yields a
(bundle name, file path) entry since parse_bundle_file always returns a
non-empty dict. -/
def bundles_collect (files : List BundleFile) : List (String × String) :=
  files.foldl (fun d f => dictUpd (fun _ => f.filepath) d f.bundleName) []

/-- bundles.MultiqcModule.__init__: this module raises when single-subject
mode is NOT enabled (the kwargs flag or config.single_subject_report), and
raises again when no bundle survives the name filter. -/
def bundlesRun (single_subject_kwarg single_subject_report : Bool)
    (files : List BundleFile) (keep : String → Bool) :
    ModuleResult (List (String × String)) :=
  let mode := single_subject_kwarg || single_subject_report
  if !mode then .noSamplesFound
  else
    let bd := (bundles_collect files).filter (fun p => keep p.1)
    if bd.length = 0 then .noSamplesFound
    else .ok bd

end Neuro


namespace Neuro

/-! ## Dictionary lemmas -/

lemma lookupV_nil {α : Type} (k : String) :
    lookupV ([] : List (String × α)) k = none := rfl

lemma lookupV_cons {α : Type} (k' : String) (v : α) (rest : List (String × α))
    (k : String) :
    lookupV ((k', v) :: rest) k = if k' = k then some v else lookupV rest k := by
  by_cases h : k' = k
  · subst h; simp [lookupV, List.find?]
  · have hb : (k' == k) = false := beq_eq_false_iff_ne.mpr h
    simp [lookupV, List.find?, hb, h]

lemma dictUpd_lookup {α : Type} (f : Option α → α) (m : List (String × α))
    (k k' : String) :
    lookupV (dictUpd f m k) k' =
      if k' = k then some (f (lookupV m k)) else lookupV m k' := by
  induction m with
  | nil =>
      by_cases h : k' = k
      · subst h; simp [dictUpd, lookupV_cons, lookupV]
      · have h2 : k ≠ k' := fun hh => h hh.symm
        simp [dictUpd, lookupV_cons, lookupV, h, h2]
  | cons p rest ih =>
      obtain ⟨k'', v⟩ := p
      by_cases h1 : k'' = k
      · subst h1
        by_cases h2 : k' = k''
        · subst h2
          simp [dictUpd, lookupV_cons]
        · have h3 : k'' ≠ k' := fun hh => h2 hh.symm
          simp [dictUpd, lookupV_cons, h2, h3]
      · by_cases h2 : k' = k
        · subst h2
          have h3 : k'' ≠ k' := h1
          simp [dictUpd, lookupV_cons, h1, h3, ih]
        · by_cases h3 : k'' = k'
          · subst h3
            simp [dictUpd, lookupV_cons, h1, h2, ih]
          · simp [dictUpd, lookupV_cons, h1, h2, h3, ih]

lemma mem_keys_iff {α : Type} (m : List (String × α)) (k : String) :
    k ∈ keys m ↔ ∃ v, (k, v) ∈ m := by
  constructor
  · intro h
    obtain ⟨⟨a, b⟩, hm, he⟩ := List.mem_map.mp h
    exact ⟨b, he ▸ hm⟩
  · rintro ⟨v, hv⟩
    exact List.mem_map.mpr ⟨(k, v), hv, rfl⟩

lemma lookupV_eq_none_iff {α : Type} (m : List (String × α)) (k : String) :
    lookupV m k = none ↔ k ∉ keys m := by
  induction m with
  | nil => simp [lookupV, keys]
  | cons p rest ih =>
      obtain ⟨k', v⟩ := p
      rw [lookupV_cons]
      by_cases h : k' = k
      · subst h; simp [keys]
      · have h2 : k ≠ k' := fun hh => h hh.symm
        simp [keys, h, h2] at ih ⊢
        exact ih

lemma lookupV_of_mem_nodup {α : Type} {m : List (String × α)} {k : String}
    {v : α} (hnd : (keys m).Nodup) (hm : (k, v) ∈ m) : lookupV m k = some v := by
  induction m with
  | nil => cases hm
  | cons p rest ih =>
      obtain ⟨k', v'⟩ := p
      rw [lookupV_cons]
      have hnd' : k' ∉ keys rest ∧ (keys rest).Nodup := by
        simpa [keys] using hnd
      rcases List.mem_cons.mp hm with h | h
      · injection h with h1 h2
        subst h1
        subst h2
        simp
      · have hk : k' ≠ k := by
          intro hh
          exact hnd'.1 (by rw [hh]; exact (mem_keys_iff rest k).mpr ⟨v, h⟩)
        rw [if_neg hk]
        exact ih (by simpa [keys] using hnd'.2) h

lemma assoc_val_unique {α : Type} {m : List (String × α)} {k : String}
    {v1 v2 : α} (hnd : (keys m).Nodup) (h1 : (k, v1) ∈ m) (h2 : (k, v2) ∈ m) :
    v1 = v2 := by
  have e1 := lookupV_of_mem_nodup hnd h1
  have e2 := lookupV_of_mem_nodup hnd h2
  exact Option.some.inj (e1.symm.trans e2)

lemma keys_dictUpd {α : Type} (f : Option α → α) (m : List (String × α))
    (k : String) :
    keys (dictUpd f m k) = if k ∈ keys m then keys m else keys m ++ [k] := by
  induction m with
  | nil => simp [dictUpd, keys]
  | cons p rest ih =>
      obtain ⟨k', v⟩ := p
      by_cases h : k' = k
      · subst h; simp [dictUpd, keys]
      · have h2 : k ≠ k' := fun hh => h hh.symm
        simp only [dictUpd, if_neg h, keys, List.map_cons] at ih ⊢
        by_cases h3 : k ∈ rest.map Prod.fst
        · simp [List.mem_cons, h2, h3, ih]
        · simp [List.mem_cons, h2, h3, ih]

lemma keys_dictUpd_nodup {α : Type} (f : Option α → α) {m : List (String × α)}
    (k : String) (hnd : (keys m).Nodup) : (keys (dictUpd f m k)).Nodup := by
  rw [keys_dictUpd]
  split_ifs with h
  · exact hnd
  · simp [List.nodup_append, hnd, h]

lemma mem_keys_dictUpd {α : Type} (f : Option α → α) (m : List (String × α))
    (k k' : String) :
    k' ∈ keys (dictUpd f m k) ↔ k' ∈ keys m ∨ k' = k := by
  rw [keys_dictUpd]
  split_ifs with h
  · constructor
    · exact Or.inl
    · rintro (hh | rfl)
      · exact hh
      · exact h
  · simp

lemma dictFold_append {α β : Type} (κ : β → String) (g : β → Option α → α)
    (m : List (String × α)) (l1 l2 : List β) :
    dictFold κ g m (l1 ++ l2) = dictFold κ g (dictFold κ g m l1) l2 := by
  simp [dictFold, List.foldl_append]

lemma dictFold_lookup {α β : Type} (κ : β → String) (g : β → Option α → α) :
    ∀ (l : List β) (m : List (String × α)) (k : String),
      lookupV (dictFold κ g m l) k =
        (l.filter (fun b => κ b == k)).foldl (fun o b => some (g b o))
          (lookupV m k) := by
  intro l
  induction l with
  | nil => intro m k; rfl
  | cons b bs ih =>
      intro m k
      show lookupV (dictFold κ g (dictUpd (g b) m (κ b)) bs) k = _
      rw [ih, dictUpd_lookup]
      by_cases h : κ b = k
      · simp [List.filter_cons, h]
      · have h2 : k ≠ κ b := fun hh => h hh.symm
        simp [List.filter_cons, h, h2]

lemma mem_keys_dictFold {α β : Type} (κ : β → String) (g : β → Option α → α) :
    ∀ (l : List β) (m : List (String × α)) (k : String),
      k ∈ keys (dictFold κ g m l) ↔ k ∈ keys m ∨ k ∈ l.map κ := by
  intro l
  induction l with
  | nil => intro m k; simp [dictFold]
  | cons b bs ih =>
      intro m k
      show k ∈ keys (dictFold κ g (dictUpd (g b) m (κ b)) bs) ↔ _
      rw [ih, mem_keys_dictUpd]
      simp only [List.map_cons, List.mem_cons]
      tauto

lemma keys_dictFold_nodup {α β : Type} (κ : β → String) (g : β → Option α → α) :
    ∀ (l : List β) (m : List (String × α)), (keys m).Nodup →
      (keys (dictFold κ g m l)).Nodup := by
  intro l
  induction l with
  | nil => intro m h; exact h
  | cons b bs ih =>
      intro m h
      exact ih _ (keys_dictUpd_nodup _ _ h)

lemma length_eq_of_nodup_of_mem_iff {l1 l2 : List String} (h1 : l1.Nodup)
    (h2 : l2.Nodup) (hm : ∀ x, x ∈ l1 ↔ x ∈ l2) : l1.length = l2.length := by
  rw [← List.toFinset_card_of_nodup h1, ← List.toFinset_card_of_nodup h2]
  congr 1
  ext x
  simpa using hm x

lemma length_dictFold_nil {α β : Type} (κ : β → String) (g : β → Option α → α)
    (l : List β) :
    (dictFold κ g ([] : List (String × α)) l).length = (l.map κ).dedup.length := by
  have hlen : (dictFold κ g ([] : List (String × α)) l).length
      = (keys (dictFold κ g ([] : List (String × α)) l)).length := by
    simp [keys]
  rw [hlen]
  apply length_eq_of_nodup_of_mem_iff
  · exact keys_dictFold_nodup κ g l [] (by simp [keys])
  · exact (l.map κ).nodup_dedup
  · intro x
    rw [mem_keys_dictFold, List.mem_dedup]
    simp [keys]

end Neuro

namespace Neuro

/-! ## Set and collector lemmas -/

lemma mem_setAdd (xs : List String) (x y : String) :
    y ∈ setAdd xs x ↔ y ∈ xs ∨ y = x := by
  by_cases h : x ∈ xs
  · simp only [setAdd, if_pos h]
    constructor
    · exact Or.inl
    · rintro (hy | rfl)
      · exact hy
      · exact h
  · simp [setAdd, h]

lemma setAdd_nodup {xs : List String} (x : String) (h : xs.Nodup) :
    (setAdd xs x).Nodup := by
  by_cases hm : x ∈ xs
  · simpa [setAdd, hm] using h
  · simp [setAdd, hm, List.nodup_append, h]

lemma mem_foldl_setAdd :
    ∀ (bs : List String) (vs : List String) (y : String),
      y ∈ bs.foldl setAdd vs ↔ y ∈ vs ∨ y ∈ bs := by
  intro bs
  induction bs with
  | nil => simp
  | cons b bs ih =>
      intro vs y
      simp only [List.foldl_cons]
      rw [ih, mem_setAdd]
      simp only [List.mem_cons]
      tauto

lemma nodup_foldl_setAdd :
    ∀ (bs vs : List String), vs.Nodup → (bs.foldl setAdd vs).Nodup := by
  intro bs
  induction bs with
  | nil => intro vs h; exact h
  | cons b bs ih => intro vs h; exact ih _ (setAdd_nodup b h)

lemma length_foldl_setAdd_nil (bs : List String) :
    (bs.foldl setAdd []).length = bs.dedup.length := by
  apply length_eq_of_nodup_of_mem_iff
  · exact nodup_foldl_setAdd bs [] List.nodup_nil
  · exact bs.nodup_dedup
  · intro x
    rw [mem_foldl_setAdd, List.mem_dedup]
    simp

lemma foldl_append_collect {β : Type} (f : β → ℚ) :
    ∀ (l : List β) (vs : List ℚ),
      l.foldl (fun o b => some ((o.getD []) ++ [f b])) (some vs)
        = some (vs ++ l.map f) := by
  intro l
  induction l with
  | nil => intro vs; simp
  | cons b bs ih =>
      intro vs
      simp only [List.foldl_cons, Option.getD_some]
      rw [ih]
      simp

lemma foldl_append_collect_none {β : Type} (f : β → ℚ) (l : List β) :
    l.foldl (fun o b => some ((o.getD []) ++ [f b])) none
      = if l.isEmpty then none else some (l.map f) := by
  cases l with
  | nil => rfl
  | cons b bs =>
      simp only [List.foldl_cons, Option.getD_none]
      rw [foldl_append_collect]
      simp

lemma foldl_setAdd_collect {β : Type} (f : β → String) :
    ∀ (l : List β) (vs : List String),
      l.foldl (fun o b => some (setAdd (o.getD []) (f b))) (some vs)
        = some ((l.map f).foldl setAdd vs) := by
  intro l
  induction l with
  | nil => intro vs; simp
  | cons b bs ih =>
      intro vs
      simp only [List.foldl_cons, Option.getD_some]
      rw [ih]
      simp

lemma foldl_setAdd_collect_none {β : Type} (f : β → String) (l : List β) :
    l.foldl (fun o b => some (setAdd (o.getD []) (f b))) none
      = if l.isEmpty then none
        else some ((l.map f).foldl setAdd []) := by
  cases l with
  | nil => rfl
  | cons b bs =>
      simp only [List.foldl_cons, Option.getD_none]
      rw [foldl_setAdd_collect]
      simp

/-! ## Status grouping lemmas -/

lemma foldl_statusStep {α : Type} (f : α → Status) :
    ∀ (xs : List (String × α)) (g0 : StatusGroups),
      xs.foldl (statusStep f) g0 =
        ⟨g0.passG ++ (xs.filter (fun p => f p.2 == Status.pass)).map Prod.fst,
         g0.warnG ++ (xs.filter (fun p => f p.2 == Status.warn)).map Prod.fst,
         g0.failG ++ (xs.filter (fun p => f p.2 == Status.fail)).map Prod.fst⟩ := by
  intro xs
  induction xs with
  | nil => intro g0; simp
  | cons p ps ih =>
      intro g0
      simp only [List.foldl_cons]
      rw [ih]
      cases hf : f p.2 <;>
        simp [statusStep, hf, List.filter_cons]

lemma statusGroupsOf_eq {α : Type} (f : α → Status) (xs : List (String × α)) :
    statusGroupsOf f xs =
      ⟨(xs.filter (fun p => f p.2 == Status.pass)).map Prod.fst,
       (xs.filter (fun p => f p.2 == Status.warn)).map Prod.fst,
       (xs.filter (fun p => f p.2 == Status.fail)).map Prod.fst⟩ := by
  show xs.foldl (statusStep f) ⟨[], [], []⟩ = _
  rw [foldl_statusStep]
  simp

lemma mem_map_fst_filter {α : Type} (xs : List (String × α))
    (q : String × α → Bool) (s : String) :
    s ∈ (xs.filter q).map Prod.fst ↔ ∃ v, (s, v) ∈ xs ∧ q (s, v) = true := by
  constructor
  · intro h
    obtain ⟨p, hp, he⟩ := List.mem_map.mp h
    obtain ⟨hm, hq⟩ := List.mem_filter.mp hp
    refine ⟨p.2, ?_, ?_⟩
    · rw [← he]; exact hm
    · rw [← he]; exact hq
  · rintro ⟨v, hm, hq⟩
    exact List.mem_map.mpr ⟨(s, v), List.mem_filter.mpr ⟨hm, hq⟩, rfl⟩

lemma mem_passG_iff {α : Type} (f : α → Status) (xs : List (String × α))
    (s : String) :
    s ∈ (statusGroupsOf f xs).passG ↔ ∃ v, (s, v) ∈ xs ∧ f v = .pass := by
  rw [statusGroupsOf_eq]
  show s ∈ (xs.filter _).map Prod.fst ↔ _
  rw [mem_map_fst_filter]
  simp

lemma mem_warnG_iff {α : Type} (f : α → Status) (xs : List (String × α))
    (s : String) :
    s ∈ (statusGroupsOf f xs).warnG ↔ ∃ v, (s, v) ∈ xs ∧ f v = .warn := by
  rw [statusGroupsOf_eq]
  show s ∈ (xs.filter _).map Prod.fst ↔ _
  rw [mem_map_fst_filter]
  simp

lemma mem_failG_iff {α : Type} (f : α → Status) (xs : List (String × α))
    (s : String) :
    s ∈ (statusGroupsOf f xs).failG ↔ ∃ v, (s, v) ∈ xs ∧ f v = .fail := by
  rw [statusGroupsOf_eq]
  show s ∈ (xs.filter _).map Prod.fst ↔ _
  rw [mem_map_fst_filter]
  simp

lemma statusGroups_cover {α : Type} (f : α → Status) (xs : List (String × α))
    (s : String) :
    (s ∈ (statusGroupsOf f xs).passG ∨ s ∈ (statusGroupsOf f xs).warnG ∨
      s ∈ (statusGroupsOf f xs).failG) ↔ s ∈ keys xs := by
  rw [mem_passG_iff, mem_warnG_iff, mem_failG_iff]
  constructor
  · rintro (⟨v, hm, _⟩ | ⟨v, hm, _⟩ | ⟨v, hm, _⟩) <;>
      exact (mem_keys_iff xs s).mpr ⟨v, hm⟩
  · intro h
    obtain ⟨v, hv⟩ := (mem_keys_iff xs s).mp h
    cases hf : f v with
    | pass => exact Or.inl ⟨v, hv, hf⟩
    | warn => exact Or.inr (Or.inl ⟨v, hv, hf⟩)
    | fail => exact Or.inr (Or.inr ⟨v, hv, hf⟩)

lemma statusGroups_disjoint {α : Type} (f : α → Status) (xs : List (String × α))
    (hnd : (keys xs).Nodup) (s : String) :
    ¬(s ∈ (statusGroupsOf f xs).passG ∧ s ∈ (statusGroupsOf f xs).warnG) ∧
    ¬(s ∈ (statusGroupsOf f xs).passG ∧ s ∈ (statusGroupsOf f xs).failG) ∧
    ¬(s ∈ (statusGroupsOf f xs).warnG ∧ s ∈ (statusGroupsOf f xs).failG) := by
  refine ⟨?_, ?_, ?_⟩ <;> rintro ⟨h1, h2⟩
  · obtain ⟨v1, hm1, hf1⟩ := (mem_passG_iff f xs s).mp h1
    obtain ⟨v2, hm2, hf2⟩ := (mem_warnG_iff f xs s).mp h2
    rw [assoc_val_unique hnd hm1 hm2] at hf1
    rw [hf1] at hf2
    cases hf2
  · obtain ⟨v1, hm1, hf1⟩ := (mem_passG_iff f xs s).mp h1
    obtain ⟨v2, hm2, hf2⟩ := (mem_failG_iff f xs s).mp h2
    rw [assoc_val_unique hnd hm1 hm2] at hf1
    rw [hf1] at hf2
    cases hf2
  · obtain ⟨v1, hm1, hf1⟩ := (mem_warnG_iff f xs s).mp h1
    obtain ⟨v2, hm2, hf2⟩ := (mem_failG_iff f xs s).mp h2
    rw [assoc_val_unique hnd hm1 hm2] at hf1
    rw [hf1] at hf2
    cases hf2

/-! ## Min and max lemmas -/

lemma foldl_min_le_init : ∀ (xs : List ℚ) (a : ℚ), xs.foldl min a ≤ a := by
  intro xs
  induction xs with
  | nil => intro a; simp
  | cons x xs ih =>
      intro a
      simp only [List.foldl_cons]
      exact le_trans (ih (min a x)) (min_le_left a x)

lemma foldl_min_le_mem :
    ∀ (xs : List ℚ) (a v : ℚ), v ∈ xs → xs.foldl min a ≤ v := by
  intro xs
  induction xs with
  | nil => intro a v h; cases h
  | cons x xs ih =>
      intro a v h
      simp only [List.foldl_cons]
      rcases List.mem_cons.mp h with rfl | h
      · exact le_trans (foldl_min_le_init xs (min a v)) (min_le_right a v)
      · exact ih (min a x) v h

lemma listMin_le {xs : List ℚ} {v : ℚ} (h : v ∈ xs) : listMin xs ≤ v := by
  cases xs with
  | nil => cases h
  | cons x rest =>
      rcases List.mem_cons.mp h with rfl | h
      · exact foldl_min_le_init rest v
      · exact foldl_min_le_mem rest x v h

lemma init_le_foldl_max : ∀ (xs : List ℚ) (a : ℚ), a ≤ xs.foldl max a := by
  intro xs
  induction xs with
  | nil => intro a; simp
  | cons x xs ih =>
      intro a
      simp only [List.foldl_cons]
      exact le_trans (le_max_left a x) (ih (max a x))

lemma mem_le_foldl_max :
    ∀ (xs : List ℚ) (a v : ℚ), v ∈ xs → v ≤ xs.foldl max a := by
  intro xs
  induction xs with
  | nil => intro a v h; cases h
  | cons x xs ih =>
      intro a v h
      simp only [List.foldl_cons]
      rcases List.mem_cons.mp h with rfl | h
      · exact le_trans (le_max_right a v) (init_le_foldl_max xs (max a v))
      · exact ih (max a x) v h

lemma le_listMax {xs : List ℚ} {v : ℚ} (h : v ∈ xs) : v ≤ listMax xs := by
  cases xs with
  | nil => cases h
  | cons x rest =>
      rcases List.mem_cons.mp h with rfl | h
      · exact init_le_foldl_max rest v
      · exact mem_le_foldl_max rest x v h

end Neuro

namespace Neuro

/-! ## Cortical pipeline lemmas -/

/-- All (region, volume) pairs of the data, in sample order then region
order: the traversal order of the region_values loop. -/
def region_pairs (cdata : List (String × List (String × ℚ))) :
    List (String × ℚ) :=
  (cdata.map Prod.snd).flatten

/-- The value group of one region: the volumes recorded for it across the
cohort, in traversal order. -/
def region_group (cdata : List (String × List (String × ℚ))) (r : String) :
    List ℚ :=
  ((region_pairs cdata).filter (fun rv => rv.1 == r)).map (fun rv => rv.2)

/-- The number of distinct regions across the whole cohort. -/
def cohort_region_count (cdata : List (String × List (String × ℚ))) : ℕ :=
  ((region_pairs cdata).map Prod.fst).dedup.length

lemma region_values_eq_dictFold :
    ∀ (cdata : List (String × List (String × ℚ)))
      (acc : List (String × List ℚ)),
      cdata.foldl
          (fun acc sr =>
            dictFold Prod.fst (fun rv o => (o.getD []) ++ [rv.2]) acc sr.2) acc
        = dictFold Prod.fst (fun rv o => (o.getD []) ++ [rv.2]) acc
            (region_pairs cdata) := by
  intro cdata
  induction cdata with
  | nil => intro acc; rfl
  | cons p rest ih =>
      intro acc
      simp only [List.foldl_cons, region_pairs, List.map_cons, List.flatten_cons]
      rw [dictFold_append]
      exact ih _

lemma lookup_region_values (cdata : List (String × List (String × ℚ)))
    (r : String) :
    lookupV (region_values cdata) r =
      if (region_group cdata r).isEmpty then none
      else some (region_group cdata r) := by
  have h0 : region_values cdata
      = dictFold Prod.fst (fun rv o => (o.getD []) ++ [rv.2]) []
          (region_pairs cdata) :=
    region_values_eq_dictFold cdata []
  rw [h0, dictFold_lookup]
  show ((region_pairs cdata).filter (fun rv => rv.1 == r)).foldl
      (fun o b => some ((o.getD []) ++ [b.2])) none = _
  rw [foldl_append_collect_none (fun rv : String × ℚ => rv.2)]
  by_cases h : ((region_pairs cdata).filter (fun rv => rv.1 == r)) = []
  · have hA : ((region_pairs cdata).filter (fun rv => rv.1 == r)).isEmpty = true := by
      simp [h]
    have hB : (region_group cdata r).isEmpty = true := by
      simp [region_group, h]
    rw [if_pos hA, if_pos hB]
  · have hA : ¬(((region_pairs cdata).filter (fun rv => rv.1 == r)).isEmpty = true) := by
      simp [h]
    have hB : ¬((region_group cdata r).isEmpty = true) := by
      simp [region_group, h]
    rw [if_neg hA, if_neg hB]
    rfl

lemma mem_region_pairs_of_mem {cdata : List (String × List (String × ℚ))}
    {s : String} {regs : List (String × ℚ)} {rv : String × ℚ}
    (hs : (s, regs) ∈ cdata) (hrv : rv ∈ regs) : rv ∈ region_pairs cdata := by
  simp only [region_pairs, List.mem_flatten]
  exact ⟨regs, List.mem_map.mpr ⟨(s, regs), hs, rfl⟩, hrv⟩

lemma mem_region_group {cdata : List (String × List (String × ℚ))}
    {s : String} {regs : List (String × ℚ)} {r : String} {v : ℚ}
    (hs : (s, regs) ∈ cdata) (hrv : (r, v) ∈ regs) :
    v ∈ region_group cdata r := by
  exact List.mem_map.mpr
    ⟨(r, v), List.mem_filter.mpr ⟨mem_region_pairs_of_mem hs hrv, by simp⟩, rfl⟩

lemma lookupV_map_snd {α β : Type} (f : α → β) :
    ∀ (m : List (String × α)) (k : String),
      lookupV (m.map (fun p => (p.1, f p.2))) k = (lookupV m k).map f := by
  intro m
  induction m with
  | nil => intro k; rfl
  | cons p rest ih =>
      intro k
      obtain ⟨k', v⟩ := p
      by_cases h : k' = k
      · subst h; simp [List.map_cons, lookupV_cons]
      · simp [List.map_cons, lookupV_cons, h, ih]

lemma lookup_cortical_bounds_map {cdata : List (String × List (String × ℚ))}
    {r : String} (h : ¬(region_group cdata r).isEmpty) :
    lookupV (cortical_bounds_map cdata) r =
      some (cortical_region_bounds (region_group cdata r)) := by
  show lookupV ((region_values cdata).map
      (fun p => (p.1, cortical_region_bounds p.2))) r = _
  rw [lookupV_map_snd, lookup_region_values, if_neg h]
  rfl

lemma foldl_count {β : Type} (p : β → Bool) :
    ∀ (l : List β) (n : ℕ),
      l.foldl (fun c b => if p b then c + 1 else c) n = n + l.countP p := by
  intro l
  induction l with
  | nil => intro n; simp
  | cons b bs ih =>
      intro n
      simp only [List.foldl_cons]
      by_cases h : p b
      · simp only [h, if_true, ih, List.countP_cons, h]
        omega
      · simp only [h, if_false, ih, List.countP_cons]
        simp [h]

lemma outlier_count_eq_countP (bounds : List (String × (ℚ × ℚ)))
    (regs : List (String × ℚ)) :
    outlier_count bounds regs = regs.countP (fun rv => is_outlier_at bounds rv) := by
  show regs.foldl (fun c rv => if is_outlier_at bounds rv then c + 1 else c) 0 = _
  rw [foldl_count, Nat.zero_add]

lemma countP_congr_list {β : Type} {p q : β → Bool} :
    ∀ {l : List β}, (∀ b ∈ l, p b = q b) → l.countP p = l.countP q := by
  intro l
  induction l with
  | nil => intro _; rfl
  | cons b bs ih =>
      intro h
      simp only [List.countP_cons]
      rw [ih (fun x hx => h x (List.mem_cons_of_mem _ hx)),
        h b (List.mem_cons_self _ _)]

end Neuro

namespace Neuro

/-- Specification-side outlier test for one (region, volume) pair: the
volume lies strictly outside the bounds computed from the region's cohort
value group. -/
def spec_outlier (cdata : List (String × List (String × ℚ)))
    (rv : String × ℚ) : Bool :=
  let b := cortical_region_bounds (region_group cdata rv.1)
  decide (rv.2 < b.1) || decide (b.2 < rv.2)

/-- Specification-side percentage for one sample: outlier regions of the
sample over the number of distinct regions of the whole cohort, times
100, and 0 when there are no regions. -/
def spec_pct (cdata : List (String × List (String × ℚ)))
    (regs : List (String × ℚ)) : ℚ :=
  if cohort_region_count cdata = 0 then 0
  else ((regs.countP (fun rv => spec_outlier cdata rv) : ℚ)
    / (cohort_region_count cdata : ℚ)) * 100

lemma cortical_bounds_map_length (cdata : List (String × List (String × ℚ))) :
    (cortical_bounds_map cdata).length = cohort_region_count cdata := by
  have h0 : region_values cdata
      = dictFold Prod.fst (fun rv o => (o.getD []) ++ [rv.2]) []
          (region_pairs cdata) :=
    region_values_eq_dictFold cdata []
  show ((region_values cdata).map _).length = _
  rw [List.length_map, h0, length_dictFold_nil]
  rfl

lemma is_outlier_at_eq_spec {cdata : List (String × List (String × ℚ))}
    {s : String} {regs : List (String × ℚ)} {r : String} {v : ℚ}
    (hs : (s, regs) ∈ cdata) (hrv : (r, v) ∈ regs) :
    is_outlier_at (cortical_bounds_map cdata) (r, v) = spec_outlier cdata (r, v) := by
  have hv : v ∈ region_group cdata r := mem_region_group hs hrv
  have hne : ¬((region_group cdata r).isEmpty = true) := by
    simp [List.ne_nil_of_mem hv]
  have hlk := lookup_cortical_bounds_map hne
  simp [is_outlier_at, hlk, spec_outlier]

lemma cortical_pct_core (cdata : List (String × List (String × ℚ)))
    (regs : List (String × ℚ))
    (h : ∀ rv ∈ regs,
      is_outlier_at (cortical_bounds_map cdata) rv = spec_outlier cdata rv) :
    (if 0 < (cortical_bounds_map cdata).length
      then ((outlier_count (cortical_bounds_map cdata) regs : ℚ)
        / ((cortical_bounds_map cdata).length : ℚ)) * 100
      else 0) = spec_pct cdata regs := by
  rw [outlier_count_eq_countP, countP_congr_list h,
    cortical_bounds_map_length]
  by_cases h0 : cohort_region_count cdata = 0
  · simp [spec_pct, h0]
  · have hpos : 0 < cohort_region_count cdata := Nat.pos_of_ne_zero h0
    simp [spec_pct, h0, hpos]

lemma pct_entry {cdata : List (String × List (String × ℚ))}
    {sr : String × List (String × ℚ)} (hm : sr ∈ cdata)
    (h : ∀ rv ∈ sr.2,
      is_outlier_at (cortical_bounds_map cdata) rv = spec_outlier cdata rv) :
    (sr.1, spec_pct cdata sr.2) ∈ calculate_outlier_percentages cdata := by
  show (sr.1, spec_pct cdata sr.2) ∈ cdata.map (fun sr =>
    (sr.1,
      if 0 < (cortical_bounds_map cdata).length
      then ((outlier_count (cortical_bounds_map cdata) sr.2 : ℚ)
        / ((cortical_bounds_map cdata).length : ℚ)) * 100
      else 0))
  rw [← cortical_pct_core cdata sr.2 h]
  exact List.mem_map_of_mem _ hm

lemma keys_calculate (cdata : List (String × List (String × ℚ))) :
    keys (calculate_outlier_percentages cdata) = keys cdata := by
  show keys (cdata.map _) = _
  simp only [keys, List.map_map]
  rfl

lemma lookup_pct {cdata : List (String × List (String × ℚ))}
    (hnd : (keys cdata).Nodup) {s : String} {regs : List (String × ℚ)}
    (hm : (s, regs) ∈ cdata) :
    lookupV (calculate_outlier_percentages cdata) s
      = some (spec_pct cdata regs) := by
  apply lookupV_of_mem_nodup
  · rw [keys_calculate]; exact hnd
  · exact pct_entry hm
      (fun rv hrv => by
        obtain ⟨r, v⟩ := rv
        exact is_outlier_at_eq_spec hm hrv)

lemma cortical_small_group_no_outlier {g : List ℚ} (hne : g ≠ [])
    (hlen : g.length < 4) {v : ℚ} (hv : v ∈ g) :
    cortical_region_bounds g = (listMin g, listMax g) ∧
    ¬(v < listMin g ∨ listMax g < v) := by
  constructor
  · simp [cortical_region_bounds, hlen]
  · rintro (h | h)
    · exact absurd (listMin_le hv) (not_le.mpr h)
    · exact absurd (le_listMax hv) (not_le.mpr h)

lemma spec_outlier_false_of_small {cdata : List (String × List (String × ℚ))}
    {s : String} {regs : List (String × ℚ)} {r : String} {v : ℚ}
    (hs : (s, regs) ∈ cdata) (hrv : (r, v) ∈ regs)
    (hlen : (region_group cdata r).length < 4) :
    spec_outlier cdata (r, v) = false := by
  have hv := mem_region_group hs hrv
  have hne : region_group cdata r ≠ [] := List.ne_nil_of_mem hv
  obtain ⟨hb, _⟩ := cortical_small_group_no_outlier hne hlen hv
  simp only [spec_outlier, hb]
  simp [not_lt.mpr (listMin_le hv), not_lt.mpr (le_listMax hv),
    not_lt_of_le (listMin_le hv), not_lt_of_le (le_listMax hv)]

lemma filter_key_length_le_one {α : Type} (regs : List (String × α))
    (r : String) (h : (keys regs).Nodup) :
    (regs.filter (fun rv => rv.1 == r)).length ≤ 1 := by
  induction regs with
  | nil => simp
  | cons q rest ih =>
      have hnd := List.nodup_cons.mp
        (show (q.1 :: keys rest).Nodup by simpa [keys] using h)
      by_cases hr : q.1 = r
      · have hfe : rest.filter (fun rv => rv.1 == r) = [] := by
          apply List.eq_nil_iff_forall_not_mem.mpr
          intro rv hmem
          obtain ⟨hm, hb⟩ := List.mem_filter.mp hmem
          have hre : rv.1 = r := by simpa using hb
          exact hnd.1 ((mem_keys_iff rest q.1).mpr
            ⟨rv.2, by rw [hr, ← hre]; exact hm⟩)
        simp [List.filter_cons, hr, hfe]
      · have hb : (q.1 == r) = false := beq_eq_false_iff_ne.mpr hr
        simp only [List.filter_cons, hb]
        simpa using ih hnd.2

lemma region_group_length_le :
    ∀ (cdata : List (String × List (String × ℚ))) (r : String),
      (∀ p ∈ cdata, (keys p.2).Nodup) →
      (region_group cdata r).length ≤ cdata.length := by
  intro cdata
  induction cdata with
  | nil => intro r _; simp [region_group, region_pairs]
  | cons p rest ih =>
      intro r h
      have hp : (keys p.2).Nodup := h p (List.mem_cons_self _ _)
      have h1 := filter_key_length_le_one p.2 r hp
      have h2 := ih r (fun q hq => h q (List.mem_cons_of_mem _ hq))
      simp only [region_group, region_pairs, List.map_cons, List.flatten_cons,
        List.filter_append, List.map_append, List.length_append,
        List.length_map, List.length_cons] at *
      omega

end Neuro

namespace Neuro

lemma cortical_status_iff (pct : ℚ) :
    (cortical_status 20 10 pct = .pass ↔ pct ≤ 10) ∧
    (cortical_status 20 10 pct = .warn ↔ 10 < pct ∧ pct ≤ 20) ∧
    (cortical_status 20 10 pct = .fail ↔ 20 < pct) := by
  unfold cortical_status
  by_cases h1 : pct ≤ 10
  · rw [if_pos h1]
    refine ⟨by simp [h1], by simp; intro h; linarith, by simp; linarith⟩
  · rw [if_neg h1]
    by_cases h2 : pct ≤ 20
    · rw [if_pos h2]
      refine ⟨by simp [h1], by simp [h2, lt_of_not_le h1], by simp; linarith⟩
    · rw [if_neg h2]
      refine ⟨by simp [h1], ?_, by simp [lt_of_not_le h2]⟩
      simp
      intro h
      linarith

/-- C5: in the cortical and subcortical modules, the reported outlier
percentage of every sample equals the number of the sample's regions whose
volume is an outlier for its region group, divided by the number of
distinct regions across the whole cohort, times 100 (0.0 when there are no
regions); and with the default thresholds the status is pass when the
percentage is at most 10, warn when above 10 and at most 20, and fail
otherwise.  The subcortical module computes with the identical embedded
functions. -/
theorem claim_C5_outlier_percentage_definition :
    (∀ (cdata : List (String × List (String × ℚ))),
      (keys cdata).Nodup →
      ∀ (s : String) (regs : List (String × ℚ)), (s, regs) ∈ cdata →
        lookupV (calculate_outlier_percentages cdata) s
          = some (spec_pct cdata regs)) ∧
    (∀ pct : ℚ,
      (cortical_status 20 10 pct = .pass ↔ pct ≤ 10) ∧
      (cortical_status 20 10 pct = .warn ↔ 10 < pct ∧ pct ≤ 20) ∧
      (cortical_status 20 10 pct = .fail ↔ 20 < pct)) ∧
    (∀ ss wT fT fO fs kp, subcorticalRun ss wT fT fO fs kp
      = corticalRun ss wT fT fO fs kp) := by
  refine ⟨?_, ?_, ?_⟩
  · intro cdata hnd s regs hm
    exact lookup_pct hnd hm
  · exact cortical_status_iff
  · intro ss wT fT fO fs kp
    rfl

/-- Closed witness for C5 at a concrete two-sample cohort. -/
theorem claim_C5_witness :
    lookupV (calculate_outlier_percentages
        [("s1", [("r1", (1:ℚ))]), ("s2", [("r1", 5)])]) "s1"
      = some (spec_pct [("s1", [("r1", (1:ℚ))]), ("s2", [("r1", 5)])]
          [("r1", 1)]) ∧
    (cortical_status 20 10 0 = .pass ↔ (0:ℚ) ≤ 10) :=
  ⟨claim_C5_outlier_percentage_definition.1 _ (by decide) "s1" _ (by decide),
   (claim_C5_outlier_percentage_definition.2.1 0).1⟩

/-- C8: in the cortical and subcortical modules, a region group with fewer
than 4 values gets the full range (min, max) as bounds, so none of its
values is ever an outlier; with fewer than 4 subjects every subject's
outlier percentage is 0 and every subject is in the pass group. -/
theorem claim_C8_small_groups_never_outliers :
    (∀ (g : List ℚ), g ≠ [] → g.length < 4 →
      cortical_region_bounds g = (listMin g, listMax g) ∧
      subcortical_region_bounds g = (listMin g, listMax g) ∧
      ∀ v ∈ g, ¬(v < (cortical_region_bounds g).1 ∨
        (cortical_region_bounds g).2 < v)) ∧
    (∀ (cdata : List (String × List (String × ℚ))),
      (keys cdata).Nodup → (∀ p ∈ cdata, (keys p.2).Nodup) →
      cdata.length < 4 →
      ∀ (s : String) (regs : List (String × ℚ)), (s, regs) ∈ cdata →
        lookupV (calculate_outlier_percentages cdata) s = some 0 ∧
        s ∈ (statusGroupsOf (cortical_status 20 10)
          (calculate_outlier_percentages cdata)).passG) := by
  constructor
  · intro g hne hlen
    refine ⟨by simp [cortical_region_bounds, hlen], ?_, ?_⟩
    · simp [subcortical_region_bounds, cortical_region_bounds, hlen]
    · intro v hv
      obtain ⟨hb, hno⟩ := cortical_small_group_no_outlier hne hlen hv
      rw [hb]
      simpa using hno
  · intro cdata hnd hpern hlen s regs hm
    have hcnt : ∀ rv ∈ regs, spec_outlier cdata rv = false := by
      intro rv hrv
      obtain ⟨r, v⟩ := rv
      have hle := region_group_length_le cdata r hpern
      exact spec_outlier_false_of_small hm hrv (lt_of_le_of_lt hle hlen)
    have hz : regs.countP (fun rv => spec_outlier cdata rv) = 0 :=
      List.countP_eq_zero.mpr (fun rv hrv => by simp [hcnt rv hrv])
    have hpct : spec_pct cdata regs = 0 := by
      unfold spec_pct
      split_ifs with h0
      · rfl
      · rw [hz]; simp
    constructor
    · rw [lookup_pct hnd hm, hpct]
    · apply (mem_passG_iff _ _ _).mpr
      refine ⟨0, ?_, by decide⟩
      have hmem := pct_entry hm
        (fun rv hrv => by
          obtain ⟨r, v⟩ := rv
          exact is_outlier_at_eq_spec hm hrv)
      rw [hpct] at hmem
      exact hmem

/-- Closed witness for C8 at a three-value group and a one-sample cohort. -/
theorem claim_C8_witness :
    (cortical_region_bounds [1, 2, 3]
        = (listMin [1, 2, 3], listMax [1, 2, 3]) ∧
      subcortical_region_bounds [1, 2, 3]
        = (listMin [1, 2, 3], listMax [1, 2, 3]) ∧
      ∀ v ∈ ([1, 2, 3] : List ℚ), ¬(v < (cortical_region_bounds [1, 2, 3]).1 ∨
        (cortical_region_bounds [1, 2, 3]).2 < v)) ∧
    (lookupV (calculate_outlier_percentages [("s1", [("r1", (7:ℚ))])]) "s1"
        = some 0 ∧
      "s1" ∈ (statusGroupsOf (cortical_status 20 10)
        (calculate_outlier_percentages [("s1", [("r1", (7:ℚ))])])).passG) :=
  ⟨claim_C8_small_groups_never_outliers.1 [1, 2, 3] (by decide) (by decide),
   claim_C8_small_groups_never_outliers.2 [("s1", [("r1", (7:ℚ))])]
     (by decide) (by decide) (by decide) "s1" [("r1", 7)] (by decide)⟩

end Neuro

namespace Neuro

/-- C1 counterexample: for a region whose group has fewer than 4 values
(here three volumes 0, 10, 100), the cortical/subcortical outlier bounds
are the full range (0, 100) and not the interquartile-range formula
[Q1 - 3*IQR, Q3 + 3*IQR] = (-145, 205) that the claim states for every
per-group sample set. -/
theorem claim_C1_counterexample :
    cortical_region_bounds [0, 10, 100] = (0, 100) ∧
    (percentile [0, 10, 100] 25
        - 3 * (percentile [0, 10, 100] 75 - percentile [0, 10, 100] 25),
      percentile [0, 10, 100] 75
        + 3 * (percentile [0, 10, 100] 75 - percentile [0, 10, 100] 25))
      = (-145, 205) ∧
    cortical_region_bounds [0, 10, 100] ≠ ((-145 : ℚ), (205 : ℚ)) := by
  refine ⟨by decide, ?_, by decide⟩
  rw [Prod.mk.injEq]
  constructor <;> norm_num [percentile, sortQ, insertSorted]

/-- C1 (amended): for every region group with at least 4 values the
cortical/subcortical bounds are [Q1 - 3*IQR, Q3 + 3*IQR] with the
multiplier fixed at 3, and a volume is counted as an outlier exactly when
it is strictly outside those bounds; the streamline_count and metricsinroi
modules use [Q1 - k*IQR, Q3 + k*IQR] with the configurable multiplier k
for every group and classify strictly outside the bounds as outliers. -/
theorem claim_C1_iqr_outlier_bounds :
    (∀ (cdata : List (String × List (String × ℚ))) (r : String) (g : List ℚ),
      lookupV (region_values cdata) r = some g → 4 ≤ g.length →
      lookupV (cortical_bounds_map cdata) r =
        some (percentile g 25 - 3 * (percentile g 75 - percentile g 25),
              percentile g 75 + 3 * (percentile g 75 - percentile g 25)) ∧
      ∀ v : ℚ, is_outlier_at (cortical_bounds_map cdata) (r, v) = true ↔
        (v < percentile g 25 - 3 * (percentile g 75 - percentile g 25) ∨
         percentile g 75 + 3 * (percentile g 75 - percentile g 25) < v)) ∧
    (∀ (k : ℚ) (values : List ℚ) (v : ℚ),
      sc_status (iqr_bounds k values).1 (iqr_bounds k values).2 v = .fail ↔
        (v < percentile values 25
            - k * (percentile values 75 - percentile values 25) ∨
         percentile values 75
            + k * (percentile values 75 - percentile values 25) < v)) ∧
    (∀ (k : ℚ) (vals : List ℚ) (st : List String × List String)
        (q : String × ℚ),
      roi_mark (iqr_bounds k vals) st q =
        if q.2 < percentile vals 25
              - k * (percentile vals 75 - percentile vals 25) ∨
            percentile vals 75
              + k * (percentile vals 75 - percentile vals 25) < q.2
        then (st.1.erase q.1, setAdd st.2 q.1) else st) := by
  refine ⟨?_, ?_, ?_⟩
  · intro cdata r g hg hlen
    have hbounds : cortical_region_bounds g =
        (percentile g 25 - 3 * (percentile g 75 - percentile g 25),
         percentile g 75 + 3 * (percentile g 75 - percentile g 25)) := by
      unfold cortical_region_bounds
      rw [if_neg (not_lt.mpr hlen)]
    have hlook : lookupV (cortical_bounds_map cdata) r
        = some (cortical_region_bounds g) := by
      show lookupV ((region_values cdata).map
        (fun p => (p.1, cortical_region_bounds p.2))) r = _
      rw [lookupV_map_snd, hg]
      rfl
    refine ⟨by rw [hlook, hbounds], ?_⟩
    intro v
    rw [show is_outlier_at (cortical_bounds_map cdata) (r, v)
        = (decide (v < (cortical_region_bounds g).1)
          || decide ((cortical_region_bounds g).2 < v)) by
      simp [is_outlier_at, hlook]]
    rw [hbounds]
    simp
  · intro k values v
    unfold sc_status iqr_bounds
    by_cases h : v < percentile values 25
        - k * (percentile values 75 - percentile values 25) ∨
        percentile values 75
          + k * (percentile values 75 - percentile values 25) < v
    · rw [if_pos h]
      simpa using h
    · rw [if_neg h]
      simpa using h
  · intro k vals st q
    rfl

/-- Closed witness for the amended C1 at a four-value group. -/
theorem claim_C1_witness :
    (lookupV (cortical_bounds_map
        [("a", [("r", (1:ℚ))]), ("b", [("r", 2)]),
         ("c", [("r", 3)]), ("d", [("r", 4)])]) "r" =
      some (percentile [1, 2, 3, 4] 25
          - 3 * (percentile [1, 2, 3, 4] 75 - percentile [1, 2, 3, 4] 25),
        percentile [1, 2, 3, 4] 75
          + 3 * (percentile [1, 2, 3, 4] 75 - percentile [1, 2, 3, 4] 25)) ∧
      ∀ v : ℚ, is_outlier_at (cortical_bounds_map
          [("a", [("r", (1:ℚ))]), ("b", [("r", 2)]),
           ("c", [("r", 3)]), ("d", [("r", 4)])]) ("r", v) = true ↔
        (v < percentile [1, 2, 3, 4] 25
            - 3 * (percentile [1, 2, 3, 4] 75 - percentile [1, 2, 3, 4] 25) ∨
         percentile [1, 2, 3, 4] 75
            + 3 * (percentile [1, 2, 3, 4] 75 - percentile [1, 2, 3, 4] 25)
              < v)) ∧
    (∀ v : ℚ, sc_status (iqr_bounds 3 [1, 2, 3, 4]).1
        (iqr_bounds 3 [1, 2, 3, 4]).2 v = .fail ↔
      (v < percentile [1, 2, 3, 4] 25
          - 3 * (percentile [1, 2, 3, 4] 75 - percentile [1, 2, 3, 4] 25) ∨
       percentile [1, 2, 3, 4] 75
          + 3 * (percentile [1, 2, 3, 4] 75 - percentile [1, 2, 3, 4] 25)
            < v)) :=
  ⟨claim_C1_iqr_outlier_bounds.1
      [("a", [("r", (1:ℚ))]), ("b", [("r", 2)]),
       ("c", [("r", 3)]), ("d", [("r", 4)])] "r" [1, 2, 3, 4]
      (by decide) (by decide),
   fun v => claim_C1_iqr_outlier_bounds.2.1 3 [1, 2, 3, 4] v⟩

end Neuro

namespace Neuro

/-- C2: for the tractometry, coverage and cortical constructors (in their
multi-subject operating mode), the ModuleNoSamplesFound sentinel is raised
exactly when the parsed-and-filtered sample dict is empty (which covers
both no matching input files and every sample being removed by the
sample-ignore filter); when at least one sample survives, the constructor
completes with output instead. -/
theorem claim_C2_no_samples_sentinel :
    (∀ (wT fT : ℚ) (fO : String → Option ℚ)
        (files : List (List (List String))) (keep : String → Bool),
      (corticalRun false wT fT fO files keep = .noSamplesFound ↔
        (cortical_collect fO files).filter (fun p => keep p.1) = []) ∧
      ((cortical_collect fO files).filter (fun p => keep p.1) ≠ [] →
        ∃ out, corticalRun false wT fT fO files keep = .ok out)) ∧
    (∀ (wT fT : ℚ) (files : List CovFile) (keep : String → Bool),
      (coverageRun false wT fT files keep = .noSamplesFound ↔
        (dice_collect files).filter (fun p => keep p.1) = []) ∧
      ((dice_collect files).filter (fun p => keep p.1) ≠ [] →
        ∃ out, coverageRun false wT fT files keep = .ok out)) ∧
    (∀ (wT fT : ℚ) (files : List TractFile) (keep : String → Bool),
      (tractometryRun false wT fT files keep = .noSamplesFound ↔
        (tract_samples_bundles files).filter (fun p => keep p.1) = []) ∧
      ((tract_samples_bundles files).filter (fun p => keep p.1) ≠ [] →
        ∃ out, tractometryRun false wT fT files keep = .ok out)) := by
  refine ⟨?_, ?_, ?_⟩
  · intro wT fT fO files keep
    by_cases h : ((cortical_collect fO files).filter (fun p => keep p.1)).length = 0
    · have he : (cortical_collect fO files).filter (fun p => keep p.1) = [] :=
        List.length_eq_zero.mp h
      exact ⟨by simp [corticalRun, h, he], fun hne => absurd he hne⟩
    · have hne : (cortical_collect fO files).filter (fun p => keep p.1) ≠ [] :=
        fun hh => h (by rw [hh]; rfl)
      constructor
      · simp [corticalRun, h, hne]
      · intro _
        refine ⟨⟨(cortical_collect fO files).filter (fun p => keep p.1),
          calculate_outlier_percentages
            ((cortical_collect fO files).filter (fun p => keep p.1)),
          statusGroupsOf (cortical_status wT fT)
            (calculate_outlier_percentages
              ((cortical_collect fO files).filter (fun p => keep p.1)))⟩, ?_⟩
        simp [corticalRun, h]
  · intro wT fT files keep
    by_cases h : ((dice_collect files).filter (fun p => keep p.1)).length = 0
    · have he : (dice_collect files).filter (fun p => keep p.1) = [] :=
        List.length_eq_zero.mp h
      exact ⟨by simp [coverageRun, h, he], fun hne => absurd he hne⟩
    · have hne : (dice_collect files).filter (fun p => keep p.1) ≠ [] :=
        fun hh => h (by rw [hh]; rfl)
      constructor
      · simp [coverageRun, h, hne]
      · intro _
        refine ⟨⟨(dice_collect files).filter (fun p => keep p.1),
          statusGroupsOf (coverage_status wT fT)
            ((dice_collect files).filter (fun p => keep p.1))⟩, ?_⟩
        simp [coverageRun, h]
  · intro wT fT files keep
    by_cases hf : files.length = 0
    · have hfe : files = [] := List.length_eq_zero.mp hf
      subst hfe
      exact ⟨⟨fun _ => rfl, fun _ => rfl⟩, fun hne => absurd rfl hne⟩
    · by_cases h : ((tract_samples_bundles files).filter (fun p => keep p.1)).length = 0
      · have he : (tract_samples_bundles files).filter (fun p => keep p.1) = [] :=
          List.length_eq_zero.mp h
        exact ⟨by simp [tractometryRun, hf, h, he], fun hne => absurd he hne⟩
      · have hne : (tract_samples_bundles files).filter (fun p => keep p.1) ≠ [] :=
          fun hh => h (by rw [hh]; rfl)
        constructor
        · simp [tractometryRun, hf, h, hne]
        · intro _
          refine ⟨⟨(tract_samples_bundles files).filter (fun p => keep p.1),
            tract_sample_percentages
              ((tract_samples_bundles files).filter (fun p => keep p.1))
              (tract_bundle_metrics files).length,
            statusGroupsOf (tractometry_status wT fT)
              (tract_sample_percentages
                ((tract_samples_bundles files).filter (fun p => keep p.1))
                (tract_bundle_metrics files).length),
            (tract_bundle_metrics files).length⟩, ?_⟩
          simp [tractometryRun, hf, h]

/-- Closed witness for C2: a one-file coverage input that survives the
filter completes with output, and raising is equivalent to the filtered
dict being empty. -/
theorem claim_C2_witness :
    (coverageRun false (9/10) (8/10) [⟨"s1", [some 1]⟩] (fun _ => true)
        = .noSamplesFound ↔
      (dice_collect [⟨"s1", [some 1]⟩]).filter
        (fun p => (fun _ => true) p.1) = []) ∧
    (∃ out, coverageRun false (9/10) (8/10) [⟨"s1", [some 1]⟩]
      (fun _ => true) = .ok out) :=
  ⟨(claim_C2_no_samples_sentinel.2.1 (9/10) (8/10) [⟨"s1", [some 1]⟩]
      (fun _ => true)).1,
   (claim_C2_no_samples_sentinel.2.1 (9/10) (8/10) [⟨"s1", [some 1]⟩]
      (fun _ => true)).2 (by decide)⟩

end Neuro

namespace Neuro

lemma coverage_status_iff (d : ℚ) :
    (coverage_status (9/10) (8/10) d = .fail ↔ d < 8/10) ∧
    (coverage_status (9/10) (8/10) d = .warn ↔ 8/10 ≤ d ∧ d < 9/10) ∧
    (coverage_status (9/10) (8/10) d = .pass ↔ 9/10 ≤ d) := by
  unfold coverage_status
  by_cases h1 : d < 8/10
  · rw [if_pos h1]
    refine ⟨by simp [h1], by simp; intro h; linarith, by simp; linarith⟩
  · rw [if_neg h1]
    by_cases h2 : d < 9/10
    · rw [if_pos h2]
      refine ⟨by simp [h1], by simp [h2, le_of_not_lt h1], by simp; linarith⟩
    · rw [if_neg h2]
      refine ⟨by simp [h1], ?_, by simp [le_of_not_lt h2]⟩
      simp
      intro h
      linarith

/-- C7: in the coverage module with the default thresholds, a sample fails
iff its dice value is below 0.8, warns iff it is at least 0.8 and below
0.9, and passes iff it is 0.9 or greater - both for the status function
and for the rendered pass/warn/fail groups. -/
theorem claim_C7_coverage_dice_thresholds :
    (∀ d : ℚ,
      (coverage_status (9/10) (8/10) d = .fail ↔ d < 8/10) ∧
      (coverage_status (9/10) (8/10) d = .warn ↔ 8/10 ≤ d ∧ d < 9/10) ∧
      (coverage_status (9/10) (8/10) d = .pass ↔ 9/10 ≤ d)) ∧
    (∀ (data : List (String × ℚ)), (keys data).Nodup →
      ∀ (s : String) (d : ℚ), (s, d) ∈ data →
        ((s ∈ (statusGroupsOf (coverage_status (9/10) (8/10)) data).failG ↔
            d < 8/10) ∧
         (s ∈ (statusGroupsOf (coverage_status (9/10) (8/10)) data).warnG ↔
            8/10 ≤ d ∧ d < 9/10) ∧
         (s ∈ (statusGroupsOf (coverage_status (9/10) (8/10)) data).passG ↔
            9/10 ≤ d))) := by
  refine ⟨coverage_status_iff, ?_⟩
  intro data hnd s d hm
  refine ⟨?_, ?_, ?_⟩
  · rw [mem_failG_iff]
    constructor
    · rintro ⟨v, hv, hf⟩
      rw [assoc_val_unique hnd hv hm] at hf
      exact (coverage_status_iff d).1.mp hf
    · intro h
      exact ⟨d, hm, (coverage_status_iff d).1.mpr h⟩
  · rw [mem_warnG_iff]
    constructor
    · rintro ⟨v, hv, hf⟩
      rw [assoc_val_unique hnd hv hm] at hf
      exact (coverage_status_iff d).2.1.mp hf
    · intro h
      exact ⟨d, hm, (coverage_status_iff d).2.1.mpr h⟩
  · rw [mem_passG_iff]
    constructor
    · rintro ⟨v, hv, hf⟩
      rw [assoc_val_unique hnd hv hm] at hf
      exact (coverage_status_iff d).2.2.mp hf
    · intro h
      exact ⟨d, hm, (coverage_status_iff d).2.2.mpr h⟩

/-- Closed witness for C7 at a one-sample dict with dice value 1. -/
theorem claim_C7_witness :
    (coverage_status (9/10) (8/10) 1 = .pass ↔ (9/10 : ℚ) ≤ 1) ∧
    ("s1" ∈ (statusGroupsOf (coverage_status (9/10) (8/10))
        [("s1", (1:ℚ))]).passG ↔ (9/10 : ℚ) ≤ 1) :=
  ⟨(claim_C7_coverage_dice_thresholds.1 1).2.2,
   (claim_C7_coverage_dice_thresholds.2 [("s1", (1:ℚ))] (by decide) "s1" 1
      (by decide)).2.2⟩

end Neuro

namespace Neuro

/-! ## Framewise displacement pipeline lemmas -/

lemma mem_dictUpd_cases {α : Type} {f : Option α → α} :
    ∀ {m : List (String × α)} {k : String} {p : String × α},
      p ∈ dictUpd f m k → p ∈ m ∨ ∃ o, p = (k, f o) := by
  intro m
  induction m with
  | nil =>
      intro k p hp
      simp [dictUpd] at hp
      exact Or.inr ⟨none, by simp [hp]⟩
  | cons q rest ih =>
      intro k p hp
      obtain ⟨k', v⟩ := q
      by_cases h : k' = k
      · subst h
        simp only [dictUpd, if_pos rfl] at hp
        rcases List.mem_cons.mp hp with h1 | h1
        · exact Or.inr ⟨some v, h1⟩
        · exact Or.inl (List.mem_cons_of_mem _ h1)
      · simp only [dictUpd, if_neg h] at hp
        rcases List.mem_cons.mp hp with h1 | h1
        · exact Or.inl (h1 ▸ List.mem_cons_self _ _)
        · rcases ih h1 with h2 | h2
          · exact Or.inl (List.mem_cons_of_mem _ h2)
          · exact Or.inr h2

lemma parse_fd_file_values_ne_nil {f : FDFile} {s : String} {vs : List ℚ}
    (h : parse_fd_file f = some (s, vs)) : vs ≠ [] := by
  simp only [parse_fd_file] at h
  by_cases h1 : f.lines.isEmpty
  · rw [if_pos h1] at h; cases h
  · rw [if_neg h1] at h
    by_cases h2 : (parse_fd_values f.lines).isEmpty
    · rw [if_pos h2] at h; cases h
    · rw [if_neg h2] at h
      have hpair := Option.some.inj h
      injection hpair with he1 he2
      intro hc
      rw [hc] at he2
      exact h2 (by simp [he2])

lemma fd_collect_values_ne_nil :
    ∀ (files : List FDFile) (d : List (String × List ℚ)),
      (∀ q ∈ d, q.2 ≠ []) →
      ∀ p ∈ files.foldl
        (fun d f =>
          match parse_fd_file f with
          | none => d
          | some sv => dictUpd (fun _ => sv.2) d sv.1) d, p.2 ≠ [] := by
  intro files
  induction files with
  | nil => intro d hd p hp; exact hd p hp
  | cons f rest ih =>
      intro d hd p hp
      simp only [List.foldl_cons] at hp
      cases hpar : parse_fd_file f with
      | none =>
          rw [hpar] at hp
          exact ih d hd p hp
      | some sv =>
          rw [hpar] at hp
          refine ih _ ?_ p hp
          intro q hq
          rcases mem_dictUpd_cases hq with h1 | h1
          · exact hd q h1
          · obtain ⟨o, ho⟩ := h1
            rw [ho]
            obtain ⟨s, vs⟩ := sv
            exact parse_fd_file_values_ne_nil hpar

lemma keys_fd_max_values :
    ∀ (data : List (String × List ℚ)), (∀ p ∈ data, p.2 ≠ []) →
      keys (fd_max_values data) = keys data := by
  intro data
  induction data with
  | nil => intro _; rfl
  | cons p rest ih =>
      intro h
      have hp : ¬(p.2.isEmpty = true) := by
        simp [h p (List.mem_cons_self _ _)]
      have ihr := ih (fun q hq => h q (List.mem_cons_of_mem _ hq))
      have step : fd_max_values (p :: rest)
          = (p.1, listMax p.2) :: fd_max_values rest := by
        simp only [fd_max_values, List.filterMap_cons, hp]
        rfl
      rw [step]
      simp only [keys, List.map_cons] at ihr ⊢
      rw [ihr]

/-- C3: in the coverage, streamline_count and framewise_displacement
(multi-subject) status computations, the pass/warn/fail groups partition
the surviving samples: every sample name is in exactly one group, and the
groups contain only sample names.  In the streamline_count module the warn
group is always empty; in the framewise_displacement module the parser
guarantees every surviving sample a non-empty value list, so the
max-FD dict covers exactly the surviving samples. -/
theorem claim_C3_status_partition :
    (∀ (wT fT : ℚ) (data : List (String × ℚ)), (keys data).Nodup →
      ∀ s : String,
        ((s ∈ (statusGroupsOf (coverage_status wT fT) data).passG ∨
          s ∈ (statusGroupsOf (coverage_status wT fT) data).warnG ∨
          s ∈ (statusGroupsOf (coverage_status wT fT) data).failG) ↔
            s ∈ keys data) ∧
        ¬(s ∈ (statusGroupsOf (coverage_status wT fT) data).passG ∧
          s ∈ (statusGroupsOf (coverage_status wT fT) data).warnG) ∧
        ¬(s ∈ (statusGroupsOf (coverage_status wT fT) data).passG ∧
          s ∈ (statusGroupsOf (coverage_status wT fT) data).failG) ∧
        ¬(s ∈ (statusGroupsOf (coverage_status wT fT) data).warnG ∧
          s ∈ (statusGroupsOf (coverage_status wT fT) data).failG)) ∧
    (∀ (lo hi : ℚ) (data : List (String × ℤ)), (keys data).Nodup →
      ((statusGroupsOf (fun v : ℤ => sc_status lo hi (v : ℚ)) data).warnG
          = [] ∧
      ∀ s : String,
        ((s ∈ (statusGroupsOf (fun v : ℤ => sc_status lo hi (v : ℚ)) data).passG ∨
          s ∈ (statusGroupsOf (fun v : ℤ => sc_status lo hi (v : ℚ)) data).failG) ↔
            s ∈ keys data) ∧
        ¬(s ∈ (statusGroupsOf (fun v : ℤ => sc_status lo hi (v : ℚ)) data).passG ∧
          s ∈ (statusGroupsOf (fun v : ℤ => sc_status lo hi (v : ℚ)) data).failG))) ∧
    (∀ (wT fT : ℚ) (data : List (String × List ℚ)), (keys data).Nodup →
      (∀ p ∈ data, p.2 ≠ []) →
      (keys (fd_max_values data) = keys data ∧
      ∀ s : String,
        ((s ∈ (statusGroupsOf (fd_status wT fT) (fd_max_values data)).passG ∨
          s ∈ (statusGroupsOf (fd_status wT fT) (fd_max_values data)).warnG ∨
          s ∈ (statusGroupsOf (fd_status wT fT) (fd_max_values data)).failG) ↔
            s ∈ keys data) ∧
        ¬(s ∈ (statusGroupsOf (fd_status wT fT) (fd_max_values data)).passG ∧
          s ∈ (statusGroupsOf (fd_status wT fT) (fd_max_values data)).warnG) ∧
        ¬(s ∈ (statusGroupsOf (fd_status wT fT) (fd_max_values data)).passG ∧
          s ∈ (statusGroupsOf (fd_status wT fT) (fd_max_values data)).failG) ∧
        ¬(s ∈ (statusGroupsOf (fd_status wT fT) (fd_max_values data)).warnG ∧
          s ∈ (statusGroupsOf (fd_status wT fT) (fd_max_values data)).failG))) ∧
    (∀ (files : List FDFile), ∀ p ∈ fd_collect files, p.2 ≠ []) := by
  refine ⟨?_, ?_, ?_, ?_⟩
  · intro wT fT data hnd s
    exact ⟨statusGroups_cover _ data s, statusGroups_disjoint _ data hnd s⟩
  · intro lo hi data hnd
    constructor
    · rw [statusGroupsOf_eq]
      show (data.filter
        (fun p => sc_status lo hi (p.2 : ℚ) == Status.warn)).map Prod.fst = []
      have hfe : data.filter
          (fun p => sc_status lo hi (p.2 : ℚ) == Status.warn) = [] := by
        apply List.eq_nil_iff_forall_not_mem.mpr
        intro q hq
        obtain ⟨_, hb⟩ := List.mem_filter.mp hq
        have hw : sc_status lo hi (q.2 : ℚ) = Status.warn := by simpa using hb
        unfold sc_status at hw
        split_ifs at hw <;> cases hw
      rw [hfe]
      rfl
    · intro s
      constructor
      · have hc := statusGroups_cover
          (fun v : ℤ => sc_status lo hi (v : ℚ)) data s
        have hw : ¬ s ∈ (statusGroupsOf
            (fun v : ℤ => sc_status lo hi (v : ℚ)) data).warnG := by
          rw [mem_warnG_iff]
          rintro ⟨v, _, hf⟩
          unfold sc_status at hf
          split_ifs at hf <;> cases hf
        constructor
        · rintro (h | h)
          · exact hc.mp (Or.inl h)
          · exact hc.mp (Or.inr (Or.inr h))
        · intro h
          rcases hc.mpr h with h1 | h1 | h1
          · exact Or.inl h1
          · exact absurd h1 hw
          · exact Or.inr h1
      · exact fun hh =>
          (statusGroups_disjoint _ data hnd s).2.1 hh
  · intro wT fT data hnd hval
    have hkeys := keys_fd_max_values data hval
    refine ⟨hkeys, fun s => ?_⟩
    have hnd2 : (keys (fd_max_values data)).Nodup := by rw [hkeys]; exact hnd
    refine ⟨?_, statusGroups_disjoint _ (fd_max_values data) hnd2 s⟩
    rw [statusGroups_cover, hkeys]
  · intro files p hp
    exact fd_collect_values_ne_nil files [] (by intro q hq; cases hq) p hp

/-- Closed witness for C3 at concrete one-sample inputs for each module. -/
theorem claim_C3_witness :
    (("s1" ∈ (statusGroupsOf (coverage_status (9/10) (8/10))
        [("s1", (1:ℚ))]).passG ∨
      "s1" ∈ (statusGroupsOf (coverage_status (9/10) (8/10))
        [("s1", (1:ℚ))]).warnG ∨
      "s1" ∈ (statusGroupsOf (coverage_status (9/10) (8/10))
        [("s1", (1:ℚ))]).failG) ↔
        "s1" ∈ keys [("s1", (1:ℚ))]) ∧
    ((statusGroupsOf (fun v : ℤ => sc_status 0 10 (v : ℚ))
        [("s1", (5:ℤ))]).warnG = []) ∧
    (keys (fd_max_values [("s1", [(1:ℚ)])]) = keys [("s1", [(1:ℚ)])]) :=
  ⟨(claim_C3_status_partition.1 (9/10) (8/10) [("s1", (1:ℚ))]
      (by decide) "s1").1,
   (claim_C3_status_partition.2.1 0 10 [("s1", (5:ℤ))] (by decide)).1,
   (claim_C3_status_partition.2.2.1 0 1 [("s1", [(1:ℚ)])] (by decide)
      (by decide)).1⟩

end Neuro

namespace Neuro

/-! ## Tractometry pipeline lemmas -/

/-- The bundle names parsed for one sample, in row order, duplicates
included. -/
def sample_bundle_names (files : List TractFile) (s : String) : List String :=
  ((tract_items files).filter (fun it => it.1 == s)).map (fun it => it.2.1)

/-- The bundle names of every row of every file, in order. -/
def all_bundle_names (files : List TractFile) : List String :=
  (tract_items files).map (fun it => it.2.1)

lemma lookup_tract_samples_bundles (files : List TractFile) (s : String) :
    lookupV (tract_samples_bundles files) s =
      if (sample_bundle_names files s).isEmpty then none
      else some ((sample_bundle_names files s).foldl setAdd []) := by
  show lookupV (dictFold (fun it => it.1)
    (fun it o => setAdd (o.getD []) it.2.1) [] (tract_items files)) s = _
  rw [dictFold_lookup]
  show ((tract_items files).filter (fun it => it.1 == s)).foldl
    (fun o b => some (setAdd (o.getD []) b.2.1)) none = _
  rw [foldl_setAdd_collect_none (fun it : String × String × TractRow => it.2.1)]
  by_cases h : ((tract_items files).filter (fun it => it.1 == s)) = []
  · have hA : ((tract_items files).filter (fun it => it.1 == s)).isEmpty = true := by
      simp [h]
    have hB : (sample_bundle_names files s).isEmpty = true := by
      simp [sample_bundle_names, h]
    rw [if_pos hA, if_pos hB]
  · have hA : ¬(((tract_items files).filter (fun it => it.1 == s)).isEmpty = true) := by
      simp [h]
    have hB : ¬((sample_bundle_names files s).isEmpty = true) := by
      simp [sample_bundle_names, h]
    rw [if_neg hA, if_neg hB]
    rfl

lemma keys_tract_samples_bundles_nodup (files : List TractFile) :
    (keys (tract_samples_bundles files)).Nodup :=
  keys_dictFold_nodup _ _ _ [] (by simp [keys])

lemma keys_filter_nodup {α : Type} {m : List (String × α)} (q : String × α → Bool)
    (hnd : (keys m).Nodup) : (keys (m.filter q)).Nodup :=
  List.Nodup.sublist (List.Sublist.map Prod.fst (List.filter_sublist m)) hnd

lemma tract_total_bundles (files : List TractFile) :
    (tract_bundle_metrics files).length = (all_bundle_names files).dedup.length := by
  show (dictFold (fun it => it.2.1) _ [] (tract_items files)).length = _
  rw [length_dictFold_nil]
  rfl

lemma tractometry_status_iff (pct : ℚ) :
    (tractometry_status 90 80 pct = .fail ↔ pct < 80) ∧
    (tractometry_status 90 80 pct = .warn ↔ 80 ≤ pct ∧ pct < 90) ∧
    (tractometry_status 90 80 pct = .pass ↔ 90 ≤ pct) := by
  unfold tractometry_status
  by_cases h1 : pct < 80
  · rw [if_pos h1]
    refine ⟨by simp [h1], by simp; intro h; linarith, by simp; linarith⟩
  · rw [if_neg h1]
    by_cases h2 : pct < 90
    · rw [if_pos h2]
      refine ⟨by simp [h1], by simp [h2, le_of_not_lt h1], by simp; linarith⟩
    · rw [if_neg h2]
      refine ⟨by simp [h1], ?_, by simp [le_of_not_lt h2]⟩
      simp
      intro h
      linarith

lemma keys_tract_sample_percentages (sb : List (String × List String))
    (total : ℕ) :
    keys (tract_sample_percentages sb total) = keys sb := by
  show keys (sb.map _) = _
  simp only [keys, List.map_map]
  rfl

lemma lookup_tract_sample_percentages {sb : List (String × List String)}
    (total : ℕ) (hnd : (keys sb).Nodup) {s : String} {bs : List String}
    (hm : (s, bs) ∈ sb) :
    lookupV (tract_sample_percentages sb total) s
      = some (if 0 < total then ((bs.length : ℚ) / (total : ℚ)) * 100 else 0) := by
  apply lookupV_of_mem_nodup
  · rw [keys_tract_sample_percentages]; exact hnd
  · exact List.mem_map_of_mem _ hm

/-- C6: in the tractometry module, a surviving sample's bundle-detection
percentage equals the number of distinct bundles parsed for that sample,
divided by the number of distinct bundles seen across all files, times 100
(0 when no bundles exist); with the default thresholds the sample fails
when the percentage is below 80, warns when at least 80 and below 90, and
passes otherwise. -/
theorem claim_C6_bundle_percentage :
    (∀ (files : List TractFile) (keep : String → Bool) (s : String)
        (bs : List String),
      (s, bs) ∈ (tract_samples_bundles files).filter (fun p => keep p.1) →
        bs.length = (sample_bundle_names files s).dedup.length ∧
        (tract_bundle_metrics files).length
          = (all_bundle_names files).dedup.length ∧
        lookupV (tract_sample_percentages
            ((tract_samples_bundles files).filter (fun p => keep p.1))
            (tract_bundle_metrics files).length) s
          = some (if 0 < (all_bundle_names files).dedup.length
              then (((sample_bundle_names files s).dedup.length : ℚ)
                / ((all_bundle_names files).dedup.length : ℚ)) * 100
              else 0)) ∧
    (∀ pct : ℚ,
      (tractometry_status 90 80 pct = .fail ↔ pct < 80) ∧
      (tractometry_status 90 80 pct = .warn ↔ 80 ≤ pct ∧ pct < 90) ∧
      (tractometry_status 90 80 pct = .pass ↔ 90 ≤ pct)) := by
  refine ⟨?_, tractometry_status_iff⟩
  intro files keep s bs hmem
  have hsb_nodup := keys_tract_samples_bundles_nodup files
  have hf_nodup : (keys ((tract_samples_bundles files).filter
      (fun p => keep p.1))).Nodup :=
    keys_filter_nodup _ hsb_nodup
  have hmem_sb : (s, bs) ∈ tract_samples_bundles files :=
    List.mem_of_mem_filter hmem
  have hlook := lookupV_of_mem_nodup hsb_nodup hmem_sb
  rw [lookup_tract_samples_bundles] at hlook
  by_cases he : (sample_bundle_names files s).isEmpty
  · rw [if_pos he] at hlook; cases hlook
  · rw [if_neg he] at hlook
    have hbs : bs = (sample_bundle_names files s).foldl setAdd [] :=
      (Option.some.inj hlook).symm
    have hlen : bs.length = (sample_bundle_names files s).dedup.length := by
      rw [hbs, length_foldl_setAdd_nil]
    have htot := tract_total_bundles files
    refine ⟨hlen, htot, ?_⟩
    rw [lookup_tract_sample_percentages _ hf_nodup hmem, hlen, htot]

/-- Closed witness for C6 at a one-row tractometry input. -/
theorem claim_C6_witness :
    (["b1"] : List String).length
      = (sample_bundle_names
          [⟨some "f", [⟨"s1", "b1", none, none, none⟩]⟩] "s1").dedup.length ∧
    (tractometry_status 90 80 100 = .pass ↔ (90 : ℚ) ≤ 100) :=
  ⟨(claim_C6_bundle_percentage.1
      [⟨some "f", [⟨"s1", "b1", none, none, none⟩]⟩] (fun _ => true)
      "s1" ["b1"] (by decide)).1,
   (claim_C6_bundle_percentage.2 100).2.2⟩

end Neuro

namespace Neuro

/-! ## Parser malformed-row lemmas -/

/-- C4 counterexample: the cortical parser does not drop a malformed
volume field - it records the substitute value 0.0 for the region.  Here
the conversion oracle only accepts the string "3", so the field "oops"
fails to parse, yet the parsed output records region r1 with volume 0. -/
theorem claim_C4_counterexample :
    parse_cortical_file (fun t => if t == "3" then some 3 else none)
        [["Sample", "r1"], ["s1", "oops"]] = [("s1", [("r1", 0)])] ∧
    (fun t : String => if t == "3" then some (3:ℚ) else none) "oops"
      = none := by
  exact ⟨by decide, by decide⟩

lemma parse_fd_values_eq (lines : List (List (Option ℚ))) :
    parse_fd_values lines = lines.filterMap
      (fun fields =>
        if fields.length < 2 then none else fields[1]?.getD none) := by
  have aux : ∀ (ls : List (List (Option ℚ))) (vals : List ℚ),
      ls.foldl
        (fun vals fields =>
          if fields.length < 2 then vals
          else
            match fields[1]?.getD none with
            | some v => vals ++ [v]
            | none => vals) vals
      = vals ++ ls.filterMap
          (fun fields =>
            if fields.length < 2 then none else fields[1]?.getD none) := by
    intro ls
    induction ls with
    | nil => intro vals; simp
    | cons fs rest ih =>
        intro vals
        simp only [List.foldl_cons, List.filterMap_cons]
        by_cases h : fs.length < 2
        · simp [h, ih]
        · cases hg : fs[1]?.getD none with
          | none => simp [h, hg, ih]
          | some v => simp [h, hg, ih]
  simpa using aux lines []

lemma row_metrics_upd_fa (row : TractRow) (rec : List (String × ℚ)) :
    lookupV (row_metrics_upd row rec) "fa" =
      (match row.fa with
       | some (some v) => some v
       | _ => lookupV rec "fa") := by
  have hvol : ∀ (m : List (String × ℚ)),
      lookupV (match row.volume with
        | some (some v) => dictUpd (fun _ => v) m "volume"
        | _ => m) "fa" = lookupV m "fa" := by
    intro m
    cases row.volume with
    | none => rfl
    | some o =>
        cases o with
        | none => rfl
        | some v =>
            show lookupV (dictUpd (fun _ => v) m "volume") "fa" = _
            rw [dictUpd_lookup]
            rw [if_neg (by decide)]
  have hstr : ∀ (m : List (String × ℚ)),
      lookupV (match row.streamlines with
        | some (some v) => dictUpd (fun _ => v) m "streamlines_count"
        | _ => m) "fa" = lookupV m "fa" := by
    intro m
    cases row.streamlines with
    | none => rfl
    | some o =>
        cases o with
        | none => rfl
        | some v =>
            show lookupV (dictUpd (fun _ => v) m "streamlines_count") "fa" = _
            rw [dictUpd_lookup]
            rw [if_neg (by decide)]
  show lookupV (row_metrics_upd row rec) "fa" = _
  unfold row_metrics_upd
  rw [hstr, hvol]
  cases hfa : row.fa with
  | none => rfl
  | some o =>
      cases o with
      | none => rfl
      | some v =>
          show lookupV (dictUpd (fun _ => v) rec "fa") "fa" = some v
          rw [dictUpd_lookup]
          rw [if_pos rfl]

/-- C4 (amended): the framewise-displacement, tractometry and metricsinroi
parsers drop malformed rows and fields - a row with fewer than two fields
or an unparseable second field contributes no FD value, and an fa column
that is absent, empty or unparseable records no fa metric; the cortical
and subcortical volume parsers however substitute 0.0 for a region whose
volume field fails to parse instead of dropping it. -/
theorem claim_C4_malformed_rows :
    (∀ (lines : List (List (Option ℚ))),
      parse_fd_values lines = lines.filterMap
        (fun fields =>
          if fields.length < 2 then none else fields[1]?.getD none)) ∧
    (∀ (row : TractRow) (rec : List (String × ℚ)),
      (row.fa = none ∨ row.fa = some none →
        lookupV (row_metrics_upd row rec) "fa" = lookupV rec "fa") ∧
      (∀ v : ℚ, row.fa = some (some v) →
        lookupV (row_metrics_upd row rec) "fa" = some v)) ∧
    (∀ (row : RoiRow) (rec : List (String × ℚ)),
      (row.fa = none ∨ row.fa = some none →
        roi_row_upd row rec = rec)) ∧
    (∀ (fO : String → Option ℚ) (hdr fields : List String),
      2 ≤ fields.length →
      parse_cortical_file fO [hdr, fields] =
        [(fields.headD "",
          ((hdr.drop 1).zip (fields.drop 1)).map
            (fun rv => (rv.1, (fO rv.2).getD 0)))]) := by
  refine ⟨parse_fd_values_eq, ?_, ?_, ?_⟩
  · intro row rec
    constructor
    · intro h
      rw [row_metrics_upd_fa]
      rcases h with h | h <;> rw [h]
    · intro v h
      rw [row_metrics_upd_fa, h]
  · intro row rec h
    unfold roi_row_upd
    rcases h with h | h <;> rw [h]
  · intro fO hdr fields hlen
    have h : ¬(fields.length < 2) := not_lt.mpr hlen
    simp [parse_cortical_file, h, dictUpd]

/-- Closed witness for the amended C4: a short FD row and an unparseable
second field contribute no value; an unparseable fa field records no fa;
the cortical parser records 0 for an unparseable volume. -/
theorem claim_C4_witness :
    parse_fd_values [[some 1], [some 1, none], [some 1, some 2]]
      = [[some (1:ℚ)], [some 1, none], [some 1, some 2]].filterMap
          (fun fields =>
            if fields.length < 2 then none else fields[1]?.getD none) ∧
    lookupV (row_metrics_upd ⟨"s1", "b1", some none, none, none⟩ []) "fa"
      = lookupV [] "fa" ∧
    parse_cortical_file (fun _ => none) [["Sample", "r1"], ["s1", "bad"]]
      = [("s1", [("r1", 0)])] :=
  ⟨claim_C4_malformed_rows.1 [[some 1], [some 1, none], [some 1, some 2]],
   (claim_C4_malformed_rows.2.1 ⟨"s1", "b1", some none, none, none⟩ []).1
     (Or.inr rfl),
   by
    have h := claim_C4_malformed_rows.2.2.2 (fun _ => none)
      ["Sample", "r1"] ["s1", "bad"] (by decide)
    simpa using h⟩

end Neuro

namespace Neuro

/-! ## Single-subject mode gating -/

/-- C9 counterexample: the bundles module does not raise
ModuleNoSamplesFound exactly when the single-subject flag is NOT set -
with the flag set but no surviving bundle it raises as well. -/
theorem claim_C9_counterexample :
    bundlesRun true false [] (fun _ => true) = .noSamplesFound ∧
    (true || false) = true := by
  exact ⟨rfl, rfl⟩

/-- C9 (amended): with the single-subject flag set, the tractometry,
cortical, subcortical, coverage, streamline_count and metricsinroi
constructors raise ModuleNoSamplesFound before reading any file (the
result is the sentinel for every file list); the bundles module raises at
its single-subject check exactly when the flag (or
config.single_subject_report) is NOT set, and with the flag set it still
raises exactly when no bundle survives the filter; the
framewise_displacement module runs in both modes, producing the
single-subject line plot with the flag set and the multi-subject
statistics without it. -/
theorem claim_C9_single_subject_gate :
    (∀ (wT fT : ℚ) (fO : String → Option ℚ)
        (files : List (List (List String))) (keep : String → Bool),
      corticalRun true wT fT fO files keep = .noSamplesFound ∧
      subcorticalRun true wT fT fO files keep = .noSamplesFound) ∧
    (∀ (wT fT : ℚ) (files : List TractFile) (keep : String → Bool),
      tractometryRun true wT fT files keep = .noSamplesFound) ∧
    (∀ (wT fT : ℚ) (files : List CovFile) (keep : String → Bool),
      coverageRun true wT fT files keep = .noSamplesFound) ∧
    (∀ (k : ℚ) (files : List SCFile) (keep : String → Bool),
      scRun true k files keep = .noSamplesFound) ∧
    (∀ (k : ℚ) (files : List RoiFile) (keep : String → Bool),
      roiRun true k files keep = .noSamplesFound) ∧
    (∀ (kw rep : Bool) (files : List BundleFile) (keep : String → Bool),
      ((kw || rep) = false →
        bundlesRun kw rep files keep = .noSamplesFound) ∧
      ((kw || rep) = true →
        (bundlesRun kw rep files keep = .noSamplesFound ↔
          (bundles_collect files).filter (fun p => keep p.1) = []))) ∧
    (∀ (wT fT : ℚ) (files : List FDFile) (keep : String → Bool),
      (fd_collect files).filter (fun p => keep p.1) ≠ [] →
      (∃ s vs, fdRun true wT fT files keep = .ok (.singlePlot s vs)) ∧
      (∃ m g, fdRun false wT fT files keep = .ok (.multiPlot m g))) := by
  refine ⟨?_, ?_, ?_, ?_, ?_, ?_, ?_⟩
  · intro wT fT fO files keep
    exact ⟨rfl, rfl⟩
  · intro wT fT files keep
    rfl
  · intro wT fT files keep
    rfl
  · intro k files keep
    rfl
  · intro k files keep
    rfl
  · intro kw rep files keep
    constructor
    · intro h
      simp [bundlesRun, h]
    · intro h
      by_cases h2 : ((bundles_collect files).filter (fun p => keep p.1)).length = 0
      · have he : (bundles_collect files).filter (fun p => keep p.1) = [] :=
          List.length_eq_zero.mp h2
        simp [bundlesRun, h, h2, he]
      · have hne : (bundles_collect files).filter (fun p => keep p.1) ≠ [] :=
          fun hh => h2 (by rw [hh]; rfl)
        simp [bundlesRun, h, h2, hne]
  · intro wT fT files keep hne
    have h0 : ¬(((fd_collect files).filter (fun p => keep p.1)).length = 0) :=
      fun hh => hne (List.length_eq_zero.mp hh)
    constructor
    · refine ⟨(((fd_collect files).filter (fun p => keep p.1)).headD ("", [])).1,
        (((fd_collect files).filter (fun p => keep p.1)).headD ("", [])).2, ?_⟩
      simp [fdRun, h0]
    · refine ⟨fd_max_values ((fd_collect files).filter (fun p => keep p.1)),
        statusGroupsOf (fd_status wT fT)
          (fd_max_values ((fd_collect files).filter (fun p => keep p.1))), ?_⟩
      simp [fdRun, h0]

/-- Closed witness for the amended C9 at concrete inputs: the flag raises
in the cortical module, the bundles module raises when the flag is unset,
and the fd module produces a single-subject plot with the flag set. -/
theorem claim_C9_witness :
    corticalRun true 20 10 (fun _ => none) [] (fun _ => true)
      = .noSamplesFound ∧
    bundlesRun false false [⟨"b1", "p1"⟩] (fun _ => true) = .noSamplesFound ∧
    (∃ s vs, fdRun true (8/10) 2 [⟨"s1", [[none, some 1]]⟩] (fun _ => true)
      = .ok (.singlePlot s vs)) :=
  ⟨(claim_C9_single_subject_gate.1 20 10 (fun _ => none) [] (fun _ => true)).1,
   (claim_C9_single_subject_gate.2.2.2.2.2.1 false false [⟨"b1", "p1"⟩]
      (fun _ => true)).1 (by decide),
   (claim_C9_single_subject_gate.2.2.2.2.2.2 (8/10) 2
      [⟨"s1", [[none, some 1]]⟩] (fun _ => true) (by decide)).1⟩

end Neuro

namespace Neuro

/-! ## Metricsinroi status lemmas -/

lemma mem_fa_pairs {sk : List String}
    {inner : List (String × List (String × ℚ))} {s : String} {v : ℚ} :
    (s, v) ∈ fa_pairs sk inner ↔ s ∈ sk ∧ fa_of inner s = some v := by
  constructor
  · intro h
    obtain ⟨t, ht, he⟩ := List.mem_filterMap.mp h
    cases hfa : fa_of inner t with
    | none => rw [hfa] at he; cases he
    | some w =>
        rw [hfa] at he
        have he' : some (t, w) = some (s, v) := he
        have he2 := Option.some.inj he'
        injection he2 with h1 h2
        subst h1
        subst h2
        exact ⟨ht, hfa⟩
  · rintro ⟨hs, hfa⟩
    exact List.mem_filterMap.mpr ⟨s, hs, by rw [hfa]; rfl⟩

/-- Specification-side outlier predicate for the metricsinroi status loop:
the sample has an fa value in some roi of the dict that lies strictly
outside the iqr bounds of that roi's fa values over the surviving
samples. -/
def roi_outlier_over (k : ℚ) (sk : List String)
    (rm : List (String × List (String × List (String × ℚ)))) (s : String) :
    Prop :=
  ∃ e ∈ rm, ∃ v, (s, v) ∈ fa_pairs sk e.2 ∧
    (v < (iqr_bounds k ((fa_pairs sk e.2).map Prod.snd)).1 ∨
     (iqr_bounds k ((fa_pairs sk e.2).map Prod.snd)).2 < v)

lemma roi_outlier_over_cons (k : ℚ) (sk : List String)
    (e : String × List (String × List (String × ℚ)))
    (rest : List (String × List (String × List (String × ℚ)))) (s : String) :
    roi_outlier_over k sk (e :: rest) s ↔
      (∃ v, (s, v) ∈ fa_pairs sk e.2 ∧
        (v < (iqr_bounds k ((fa_pairs sk e.2).map Prod.snd)).1 ∨
         (iqr_bounds k ((fa_pairs sk e.2).map Prod.snd)).2 < v)) ∨
      roi_outlier_over k sk rest s := by
  unfold roi_outlier_over
  constructor
  · rintro ⟨e', he', hv⟩
    rcases List.mem_cons.mp he' with rfl | h
    · exact Or.inl hv
    · exact Or.inr ⟨e', h, hv⟩
  · rintro (hv | ⟨e', he', hv⟩)
    · exact ⟨e, List.mem_cons_self _ _, hv⟩
    · exact ⟨e', List.mem_cons_of_mem _ he', hv⟩

lemma roi_mark_foldl_failed (b : ℚ × ℚ) :
    ∀ (pairs : List (String × ℚ)) (st : List String × List String)
      (s : String),
      s ∈ (pairs.foldl (roi_mark b) st).2 ↔
        s ∈ st.2 ∨ ∃ v, (s, v) ∈ pairs ∧ (v < b.1 ∨ b.2 < v) := by
  intro pairs
  induction pairs with
  | nil => simp
  | cons q rest ih =>
      intro st s
      simp only [List.foldl_cons]
      by_cases hq : q.2 < b.1 ∨ b.2 < q.2
      · rw [show roi_mark b st q = (st.1.erase q.1, setAdd st.2 q.1) from
          by simp [roi_mark, hq]]
        rw [ih]
        show s ∈ setAdd st.2 q.1 ∨ _ ↔ _
        rw [mem_setAdd]
        constructor
        · rintro ((h | rfl) | ⟨v, hv, ho⟩)
          · exact Or.inl h
          · exact Or.inr ⟨q.2, List.mem_cons_self _ _, hq⟩
          · exact Or.inr ⟨v, List.mem_cons_of_mem _ hv, ho⟩
        · rintro (h | ⟨v, hv, ho⟩)
          · exact Or.inl (Or.inl h)
          · rcases List.mem_cons.mp hv with heq | hv2
            · have hs : s = q.1 := by rw [← heq]
              exact Or.inl (Or.inr hs)
            · exact Or.inr ⟨v, hv2, ho⟩
      · rw [show roi_mark b st q = st from by simp [roi_mark, hq]]
        rw [ih]
        constructor
        · rintro (h | ⟨v, hv, ho⟩)
          · exact Or.inl h
          · exact Or.inr ⟨v, List.mem_cons_of_mem _ hv, ho⟩
        · rintro (h | ⟨v, hv, ho⟩)
          · exact Or.inl h
          · rcases List.mem_cons.mp hv with heq | hv2
            · exfalso
              have hv2 : v = q.2 := by rw [← heq]
              exact hq (hv2 ▸ ho)
            · exact Or.inr ⟨v, hv2, ho⟩

lemma roi_mark_foldl_passed (b : ℚ × ℚ) :
    ∀ (pairs : List (String × ℚ)) (st : List String × List String)
      (s : String), st.1.Nodup →
      (s ∈ (pairs.foldl (roi_mark b) st).1 ↔
        s ∈ st.1 ∧ ∀ v, (s, v) ∈ pairs → ¬(v < b.1 ∨ b.2 < v)) := by
  intro pairs
  induction pairs with
  | nil => intro st s _; simp
  | cons q rest ih =>
      intro st s hnd
      simp only [List.foldl_cons]
      by_cases hq : q.2 < b.1 ∨ b.2 < q.2
      · rw [show roi_mark b st q = (st.1.erase q.1, setAdd st.2 q.1) from
          by simp [roi_mark, hq]]
        rw [ih _ s (List.Nodup.erase _ hnd)]
        show s ∈ st.1.erase q.1 ∧ _ ↔ _
        rw [List.Nodup.mem_erase_iff hnd]
        constructor
        · rintro ⟨⟨hne, h1⟩, h2⟩
          refine ⟨h1, ?_⟩
          intro v hv
          rcases List.mem_cons.mp hv with heq | hv2
          · exfalso
            exact hne (by rw [← heq])
          · exact h2 v hv2
        · rintro ⟨h1, h2⟩
          have hne : s ≠ q.1 := by
            intro hh
            exact h2 q.2 (by rw [hh]; exact List.mem_cons_self _ _) hq
          exact ⟨⟨hne, h1⟩, fun v hv => h2 v (List.mem_cons_of_mem _ hv)⟩
      · rw [show roi_mark b st q = st from by simp [roi_mark, hq]]
        rw [ih _ s hnd]
        constructor
        · rintro ⟨h1, h2⟩
          refine ⟨h1, ?_⟩
          intro v hv
          rcases List.mem_cons.mp hv with heq | hv2
          · have hv2 : v = q.2 := by rw [← heq]
            subst hv2
            exact fun hc => hq hc
          · exact h2 v hv2
        · rintro ⟨h1, h2⟩
          exact ⟨h1, fun v hv => h2 v (List.mem_cons_of_mem _ hv)⟩

lemma roi_mark_foldl_nodup (b : ℚ × ℚ) :
    ∀ (pairs : List (String × ℚ)) (st : List String × List String),
      st.1.Nodup → ((pairs.foldl (roi_mark b) st).1).Nodup := by
  intro pairs
  induction pairs with
  | nil => intro st h; exact h
  | cons q rest ih =>
      intro st h
      simp only [List.foldl_cons]
      apply ih
      by_cases hq : q.2 < b.1 ∨ b.2 < q.2
      · rw [show roi_mark b st q = (st.1.erase q.1, setAdd st.2 q.1) from
          by simp [roi_mark, hq]]
        exact List.Nodup.erase _ h
      · rw [show roi_mark b st q = st from by simp [roi_mark, hq]]
        exact h

lemma roi_statuses_char (k : ℚ) (sk : List String) :
    ∀ (rm : List (String × List (String × List (String × ℚ))))
      (st : List String × List String), st.1.Nodup →
      (∀ s, s ∈ (rm.foldl (roi_check_step k sk) st).2 ↔
        s ∈ st.2 ∨ roi_outlier_over k sk rm s) ∧
      (∀ s, s ∈ (rm.foldl (roi_check_step k sk) st).1 ↔
        s ∈ st.1 ∧ ¬roi_outlier_over k sk rm s) ∧
      ((rm.foldl (roi_check_step k sk) st).1).Nodup := by
  intro rm
  induction rm with
  | nil =>
      intro st hnd
      refine ⟨fun s => ?_, fun s => ?_, hnd⟩ <;> simp [roi_outlier_over]
  | cons e rest ih =>
      intro st hnd
      simp only [List.foldl_cons]
      by_cases hp : (fa_pairs sk e.2).isEmpty
      · have hempty : fa_pairs sk e.2 = [] := by
          simpa [List.isEmpty_iff] using hp
        have hstep : roi_check_step k sk st e = st := by
          simp [roi_check_step, hp]
        rw [hstep]
        obtain ⟨ih2, ih1, ihn⟩ := ih st hnd
        refine ⟨fun s => ?_, fun s => ?_, ihn⟩
        · rw [ih2, roi_outlier_over_cons]
          rw [hempty]
          simp
        · rw [ih1, roi_outlier_over_cons]
          rw [hempty]
          simp
      · have hstep : roi_check_step k sk st e
            = (fa_pairs sk e.2).foldl
                (roi_mark (iqr_bounds k ((fa_pairs sk e.2).map Prod.snd))) st := by
          simp [roi_check_step, hp]
        rw [hstep]
        have hnd2 : (((fa_pairs sk e.2).foldl
            (roi_mark (iqr_bounds k ((fa_pairs sk e.2).map Prod.snd))) st).1).Nodup :=
          roi_mark_foldl_nodup _ _ _ hnd
        obtain ⟨ih2, ih1, ihn⟩ := ih _ hnd2
        refine ⟨fun s => ?_, fun s => ?_, ihn⟩
        · rw [ih2, roi_mark_foldl_failed, roi_outlier_over_cons]
          exact or_assoc
        · rw [ih1, roi_mark_foldl_passed _ _ _ _ hnd, roi_outlier_over_cons]
          constructor
          · rintro ⟨⟨h1, h2⟩, h3⟩
            refine ⟨h1, ?_⟩
            rintro (⟨v, hv, ho⟩ | h4)
            · exact h2 v hv ho
            · exact h3 h4
          · rintro ⟨h1, h2⟩
            exact ⟨⟨h1, fun v hv ho => h2 (Or.inl ⟨v, hv, ho⟩)⟩,
              fun h4 => h2 (Or.inr h4)⟩

lemma sample_fa_values_lookup_none
    {rm : List (String × List (String × List (String × ℚ)))} {s : String}
    (h : ∀ e ∈ rm, fa_of e.2 s = none) :
    ∀ (sk : List String) (acc : List (String × ℚ)), lookupV acc s = none →
      lookupV (sk.foldl
        (fun acc t =>
          let fas := rm.filterMap (fun e => fa_of e.2 t)
          if fas.isEmpty then acc
          else dictUpd (fun _ => meanQ fas) acc t) acc) s = none := by
  intro sk
  induction sk with
  | nil => intro acc hacc; exact hacc
  | cons t rest ih =>
      intro acc hacc
      simp only [List.foldl_cons]
      apply ih
      show lookupV (if (rm.filterMap (fun e => fa_of e.2 t)).isEmpty then acc
        else dictUpd (fun _ => meanQ (rm.filterMap (fun e => fa_of e.2 t)))
          acc t) s = none
      by_cases he : (rm.filterMap (fun e => fa_of e.2 t)).isEmpty
      · rw [if_pos he]; exact hacc
      · rw [if_neg he, dictUpd_lookup]
        have hts : ¬(s = t) := by
          intro hh
          subst hh
          apply he
          have hnil : rm.filterMap (fun e => fa_of e.2 s) = [] := by
            apply List.eq_nil_iff_forall_not_mem.mpr
            intro v hv
            obtain ⟨e, hme, hfe⟩ := List.mem_filterMap.mp hv
            rw [h e hme] at hfe
            cases hfe
          simp [hnil]
        rw [if_neg hts]
        exact hacc

end Neuro

namespace Neuro

/-- C10: in the metricsinroi module, a surviving sample is in the fail
group exactly when its FA value lies strictly outside the iqr-derived
bounds of at least one ROI in which it has an FA value, and in the pass
group otherwise; the warn group is the literal empty list; and a sample
with no parsed FA value in any ROI stays in the pass group and has no
mean-FA entry in the general statistics. -/
theorem claim_C10_metricsinroi_status :
    (∀ (k : ℚ) (sk : List String)
        (rm : List (String × List (String × List (String × ℚ)))),
      sk.Nodup →
      ∀ s : String,
        (s ∈ (roi_statuses k sk rm).2 ↔ roi_outlier_over k sk rm s) ∧
        (s ∈ (roi_statuses k sk rm).1 ↔
          s ∈ sk ∧ ¬roi_outlier_over k sk rm s)) ∧
    (∀ (sk : List String)
        (rm : List (String × List (String × List (String × ℚ))))
        (s : String), sk.Nodup →
      (∀ e ∈ rm, fa_of e.2 s = none) →
      ((∀ k : ℚ, s ∈ sk → s ∈ (roi_statuses k sk rm).1) ∧
       lookupV (sample_fa_values sk rm) s = none)) ∧
    (∀ (ss : Bool) (k : ℚ) (files : List RoiFile) (keep : String → Bool)
        (out : RoiOutput),
      roiRun ss k files keep = .ok out → out.groups.warnG = []) := by
  refine ⟨?_, ?_, ?_⟩
  · intro k sk rm hnd s
    obtain ⟨h2, h1, _⟩ := roi_statuses_char k sk rm (sk, []) hnd
    constructor
    · rw [show roi_statuses k sk rm = rm.foldl (roi_check_step k sk) (sk, [])
        from rfl]
      rw [h2 s]
      simp
    · rw [show roi_statuses k sk rm = rm.foldl (roi_check_step k sk) (sk, [])
        from rfl]
      exact h1 s
  · intro sk rm s hnd hno
    have hnotover : ∀ k : ℚ, ¬roi_outlier_over k sk rm s := by
      intro k hover
      obtain ⟨e, he, v, hv, _⟩ := hover
      have := (mem_fa_pairs.mp hv).2
      rw [hno e he] at this
      cases this
    constructor
    · intro k hs
      obtain ⟨_, h1, _⟩ := roi_statuses_char k sk rm (sk, []) hnd
      rw [show roi_statuses k sk rm = rm.foldl (roi_check_step k sk) (sk, [])
        from rfl]
      rw [h1 s]
      exact ⟨hs, hnotover k⟩
    · exact sample_fa_values_lookup_none hno sk [] rfl
  · intro ss k files keep out h
    unfold roiRun at h
    by_cases h1 : ss = true
    · rw [if_pos h1] at h; cases h
    · rw [if_neg h1] at h
      by_cases h2 : files.length = 0
      · rw [if_pos h2] at h; cases h
      · rw [if_neg h2] at h
        by_cases h3 : ((samples_rois files).filter (fun p => keep p.1)).length = 0
        · rw [if_pos h3] at h; cases h
        · rw [if_neg h3] at h
          have he := ModuleResult.ok.inj h
          rw [← he]

/-- Closed witness for C10: a single surviving sample with no FA value in
the one parsed ROI stays in the pass group and has no mean-FA entry. -/
theorem claim_C10_witness :
    ("s1" ∈ (roi_statuses 3 ["s1"] []).2 ↔
      roi_outlier_over 3 ["s1"] [] "s1") ∧
    ("s1" ∈ (roi_statuses 3 ["s1"]
        [("roi1", [("s2", [("fa", (2:ℚ))])])]).1 ∧
      lookupV (sample_fa_values ["s1"]
        [("roi1", [("s2", [("fa", (2:ℚ))])])]) "s1" = none) :=
  ⟨(claim_C10_metricsinroi_status.1 3 ["s1"] [] (by decide) "s1").1,
   ((claim_C10_metricsinroi_status.2.1 ["s1"]
        [("roi1", [("s2", [("fa", (2:ℚ))])])] "s1" (by decide)
        (by decide)).1 3 (by decide)),
   (claim_C10_metricsinroi_status.2.1 ["s1"]
        [("roi1", [("s2", [("fa", (2:ℚ))])])] "s1" (by decide)
        (by decide)).2⟩

end Neuro
